import Mathlib

/-!
Verification of the authoritative multiplayer-arena server core.

The repository holds three near-duplicate variants of the same Node
server: `src/server.js` (the most complete one) and two unnamed variants
(`src/unnamed/part_000`, `src/unnamed/part_001`).  The `ServerJs`
namespace below embeds the handlers of `src/server.js`; the `V1`
namespace embeds the handlers that only exist in `src/unnamed/part_001`
(speed-validated movement, the per-IP admission middleware, the
duplicate-connection guard, and the periodic cleanup sweeps).

JavaScript numbers are modelled as real numbers (`ℝ`), `Math.sqrt` as
`Real.sqrt`, `Math.atan2 y x` as `Complex.arg (x + y*I)`, and the
`Date.now()` clock as an explicit `now : ℝ` argument.  `Math.random()`
results are explicit parameters in `[0, 1)`.  Socket identifiers and IP
addresses are strings.  Each `socket.on(...)` handler becomes a function
from the game state (plus the event payload and the clock) to the new
game state together with the ordered list of emitted events, where an
emitted event records its audience: `io.emit` is `Emit.toAll`,
`socket.broadcast.emit` is `Emit.toAllExcept sid`, and `socket.emit` is
`Emit.toOne sid`.
-/

namespace Arena

/-- Socket identifier (`socket.id`). -/
abbrev Sid := String

/-- Source address (`socket.handshake.address`). -/
abbrev Addr := String

/-- One player record, as built on connection (`server.js:83-96`).
`direction`, `weaponAngle` and `lastMovementUpdate` only exist in the
`server.js` variant; the other variants never read them. -/
structure Player where
  x : ℝ
  y : ℝ
  health : ℝ
  maxHealth : ℝ
  color : String
  name : String
  angle : ℝ
  direction : ℝ
  weaponAngle : ℝ
  kills : ℕ
  lastActivity : ℝ
  lastMovementUpdate : ℝ

/-- Wire events emitted by the server.  Payloads are abbreviated to the
fields the verified properties talk about (identity, position, health,
count); purely cosmetic fields (color, name strings) are dropped. -/
inductive Event where
  | gameState
  | playerUpdate (sid : Sid) (x y : ℝ)
  | playerCountUpdate (n : ℕ)
  | playerHit (x y : ℝ) (sid : Sid) (health : ℝ)
  | playerKilled (killer victim : Sid)
  | playerRespawned (sid : Sid)
  | playerLeft (sid : Sid)
  | serverCorrection (x y t : ℝ)

/-- An emitted event together with its audience. -/
inductive Emit where
  | toAll (e : Event)
  | toAllExcept (sid : Sid) (e : Event)
  | toOne (sid : Sid) (e : Event)

/-- Whether an emitted event is delivered to the connection `sid`. -/
def Emit.deliveredTo (sid : Sid) : Emit → Prop
  | .toAll _ => True
  | .toAllExcept s _ => s ≠ sid
  | .toOne s _ => s = sid

/-- The player registry: `gameState.players`, a `Map` from socket id to
player record, modelled as an association list in insertion order. -/
abbrev Players := List (Sid × Player)

/-- `gameState.players.get sid`. -/
def lookupP (sid : Sid) : Players → Option Player
  | [] => none
  | (k, p) :: rest => if k = sid then some p else lookupP sid rest

/-- In-place mutation of the record stored under `sid` (JavaScript
mutates the object held in the `Map`; keys and order are unchanged). -/
def updateP (sid : Sid) (f : Player → Player) : Players → Players
  | [] => []
  | (k, p) :: rest =>
      if k = sid then (k, f p) :: updateP sid f rest
      else (k, p) :: updateP sid f rest

@[simp] theorem lookupP_nil (sid : Sid) : lookupP sid [] = none := rfl

@[simp] theorem lookupP_cons (sid k : Sid) (p : Player) (rest : Players) :
    lookupP sid ((k, p) :: rest) =
      if k = sid then some p else lookupP sid rest := rfl

@[simp] theorem updateP_nil (sid : Sid) (f : Player → Player) :
    updateP sid f [] = [] := rfl

@[simp] theorem updateP_cons (sid k : Sid) (f : Player → Player)
    (p : Player) (rest : Players) :
    updateP sid f ((k, p) :: rest) =
      (if k = sid then (k, f p) :: updateP sid f rest
       else (k, p) :: updateP sid f rest) := rfl

theorem lookupP_append_self (sid : Sid) (p : Player) (ps : Players) :
    lookupP sid (ps ++ [(sid, p)]) ≠ none := by
  induction ps with
  | nil => simp
  | cons hd tl ih =>
      obtain ⟨k, q⟩ := hd
      by_cases hk : k = sid <;> simp [hk, ih]

/-- `Math.atan2 y x`: the argument of the point `(x, y)`, in `(-π, π]`
(`Math.atan2` likewise returns a value in `[-π, π]`, and `atan2 0 0 = 0`). -/
noncomputable def atan2 (y x : ℝ) : ℝ := Complex.arg (x + y * Complex.I)

open Classical in
/-- The angle-difference normalization performed by the `attack` handler
(`server.js:210-215`): `angleDiff = |bearing - aim|`, folded once by
`2π - angleDiff` when it exceeds `π`. -/
noncomputable def normAngleDiff (bearing aim : ℝ) : ℝ :=
  if Real.pi < |bearing - aim| then 2 * Real.pi - |bearing - aim|
  else |bearing - aim|

/-- The angular distance the spec describes: the absolute difference
between the two angles, genuinely normalized into `[0, π]` (the absolute
value of the representative of `bearing - aim` in `(-π, π]`). -/
noncomputable def specAngularDistance (bearing aim : ℝ) : ℝ :=
  |toIocMod Real.two_pi_pos (-Real.pi) (bearing - aim)|

/-- Payload of a `move` event: `{x, y, direction?, weaponAngle?, timestamp?}`. -/
structure MoveData where
  x : ℝ
  y : ℝ
  direction : Option ℝ
  weaponAngle : Option ℝ
  timestamp : Option ℝ

namespace ServerJs

/- Game settings, `server.js:47-53`. -/

def MELEE_RANGE : ℝ := 100
def MELEE_DAMAGE : ℝ := 25
noncomputable def MELEE_ANGLE : ℝ := Real.pi / 3
def RESPAWN_TIME : ℝ := 3000
def MAP_WIDTH : ℝ := 4800
def MAP_HEIGHT : ℝ := 3200
def PLAYER_RADIUS : ℝ := 20

/-- `getRandomSpawnPoint` (`server.js:67-73`), with the two
`Math.random()` draws passed in explicitly. -/
def getRandomSpawnPoint (rx ry : ℝ) : ℝ × ℝ :=
  (100 + rx * (MAP_WIDTH - 2 * 100), 100 + ry * (MAP_HEIGHT - 2 * 100))

/-- The cone hit test of the `attack` handler (`server.js:201-228`):
within `MELEE_RANGE` plus the enlarged player radius, and folded angle
difference at most `MELEE_ANGLE / 2`. -/
def coneHit (att : Player) (aim : ℝ) (tgt : Player) : Prop :=
  Real.sqrt ((tgt.x - att.x) * (tgt.x - att.x) + (tgt.y - att.y) * (tgt.y - att.y))
      ≤ MELEE_RANGE + (PLAYER_RADIUS + 10) ∧
    normAngleDiff (atan2 (tgt.y - att.y) (tgt.x - att.x)) aim ≤ MELEE_ANGLE / 2

/-- The lane hit test of the `areaAttack` handler (`server.js:259-283`):
extended range, correct horizontal side for the attack direction, and a
vertical band of 80 units. -/
def laneHit (att : Player) (dir : ℝ) (tgt : Player) : Prop :=
  Real.sqrt ((tgt.x - att.x) * (tgt.x - att.x) + (tgt.y - att.y) * (tgt.y - att.y))
      ≤ MELEE_RANGE + 30 ∧
    ((dir = 1 ∧ tgt.x - att.x ≤ 0) ∨ (dir = -1 ∧ 0 ≤ tgt.x - att.x)) ∧
    |tgt.y - att.y| ≤ 80

/-- The circle-overlap hit test of the `mobileCollisionAttack` handler
(`server.js:320-334`): bat center within bat radius + player radius +
10 of the target center. -/
def collisionHit (batX batY batSize : ℝ) (tgt : Player) : Prop :=
  Real.sqrt ((batX - tgt.x) * (batX - tgt.x) + (batY - tgt.y) * (batY - tgt.y))
      ≤ batSize / 2 + PLAYER_RADIUS + 10

open Classical in
/-- The loop body shared by `attack` and `areaAttack`
(`server.js:198-246`, `256-310`): walk all registry entries, skip dead
targets and the attacker, apply `MELEE_DAMAGE` on a hit, emit
`playerHit`, and on a lethal hit additionally count one kill and emit
`playerKilled`.  Returns the updated registry, the number of kills, and
the emitted events. -/
noncomputable def meleeSweep (attId : Sid) (hit : Player → Prop) :
    Players → Players × ℕ × List Emit
  | [] => ([], 0, [])
  | (tid, p) :: rest =>
      let r := meleeSweep attId hit rest
      if p.health ≤ 0 ∨ tid = attId then ((tid, p) :: r.1, r.2.1, r.2.2)
      else if hit p then
        let p' := { p with health := p.health - MELEE_DAMAGE }
        if p'.health ≤ 0 then
          ((tid, p') :: r.1, r.2.1 + 1,
            Emit.toAll (Event.playerHit p'.x p'.y tid p'.health) ::
              Emit.toAll (Event.playerKilled attId tid) :: r.2.2)
        else
          ((tid, p') :: r.1, r.2.1,
            Emit.toAll (Event.playerHit p'.x p'.y tid p'.health) :: r.2.2)
      else ((tid, p) :: r.1, r.2.1, r.2.2)

open Classical in
/-- The loop of `mobileCollisionAttack` (`server.js:323-366`): identical
tail, but `break`s after the first hit (single-target semantics). -/
noncomputable def meleeSweepFirst (attId : Sid) (hit : Player → Prop) :
    Players → Players × ℕ × List Emit
  | [] => ([], 0, [])
  | (tid, p) :: rest =>
      if p.health ≤ 0 ∨ tid = attId then
        let r := meleeSweepFirst attId hit rest
        ((tid, p) :: r.1, r.2.1, r.2.2)
      else if hit p then
        let p' := { p with health := p.health - MELEE_DAMAGE }
        if p'.health ≤ 0 then
          ((tid, p') :: rest, 1,
            [Emit.toAll (Event.playerHit p'.x p'.y tid p'.health),
              Emit.toAll (Event.playerKilled attId tid)])
        else
          ((tid, p') :: rest, 0,
            [Emit.toAll (Event.playerHit p'.x p'.y tid p'.health)])
      else
        let r := meleeSweepFirst attId hit rest
        ((tid, p) :: r.1, r.2.1, r.2.2)

open Classical in
/-- The `attack` handler (`server.js:193-248`). -/
noncomputable def onAttack (ps : Players) (sid : Sid) (aim now : ℝ) :
    Players × List Emit :=
  match lookupP sid ps with
  | none => (ps, [])
  | some att =>
      if 0 < att.health then
        let ps1 := updateP sid (fun a => { a with lastActivity := now }) ps
        let r := meleeSweep sid (coneHit att aim) ps1
        (updateP sid (fun a => { a with kills := a.kills + r.2.1 }) r.1, r.2.2)
      else (ps, [])

open Classical in
/-- The `areaAttack` handler (`server.js:251-312`). -/
noncomputable def onAreaAttack (ps : Players) (sid : Sid) (dir now : ℝ) :
    Players × List Emit :=
  match lookupP sid ps with
  | none => (ps, [])
  | some att =>
      if 0 < att.health then
        let ps1 := updateP sid (fun a => { a with lastActivity := now }) ps
        let r := meleeSweep sid (laneHit att dir) ps1
        (updateP sid (fun a => { a with kills := a.kills + r.2.1 }) r.1, r.2.2)
      else (ps, [])

open Classical in
/-- The `mobileCollisionAttack` handler (`server.js:315-368`). -/
noncomputable def onMobileCollisionAttack (ps : Players) (sid : Sid)
    (batX batY batSize now : ℝ) : Players × List Emit :=
  match lookupP sid ps with
  | none => (ps, [])
  | some att =>
      if 0 < att.health then
        let ps1 := updateP sid (fun a => { a with lastActivity := now }) ps
        let r := meleeSweepFirst sid (collisionHit batX batY batSize) ps1
        (updateP sid (fun a => { a with kills := a.kills + r.2.1 }) r.1, r.2.2)
      else (ps, [])

open Classical in
/-- The `move` handler (`server.js:155-190`): throttle to one accepted
update per 16 ms, accept unconditionally otherwise, and broadcast the
accepted update to every connection except the mover
(`socket.broadcast.emit`, `server.js:177`).  A fresh player has no
`lastMovementUpdate` yet; `(player.lastMovementUpdate || 0)` is modelled
by initializing the field to 0. -/
noncomputable def onMove (ps : Players) (sid : Sid) (d : MoveData) (now : ℝ) :
    Players × List Emit :=
  match lookupP sid ps with
  | none => (ps, [])
  | some p =>
      if 0 < p.health then
        if 16 ≤ now - p.lastMovementUpdate then
          let p' := { p with
            x := d.x
            y := d.y
            direction := d.direction.getD p.direction
            weaponAngle := d.weaponAngle.getD p.weaponAngle
            lastActivity := now
            lastMovementUpdate := now }
          (updateP sid (fun _ => p') ps,
            [Emit.toAllExcept sid (Event.playerUpdate sid d.x d.y)])
        else (ps, [])
      else (ps, [])

/-- A revive scheduled by the `respawn` handler. -/
structure ScheduledRespawn where
  sid : Sid
  fireAt : ℝ

/-- The `respawn` handler (`server.js:381-394`), schedule half: if the
requesting player is present, one `setTimeout` for `RESPAWN_TIME` ms
from now is registered; otherwise nothing happens. -/
def onRespawn (ps : Players) (sid : Sid) (now : ℝ) : List ScheduledRespawn :=
  if (lookupP sid ps).isSome then [⟨sid, now + RESPAWN_TIME⟩] else []

/-- The deferred body of the `respawn` handler (`server.js:384-392`),
running when the timer fires: re-checks that the player still exists,
then moves it to a fresh random spawn point, restores full health, and
broadcasts `playerRespawned`; a no-op if the player is gone. -/
def respawnFire (ps : Players) (sid : Sid) (rx ry : ℝ) : Players × List Emit :=
  if (lookupP sid ps).isSome then
    let spawn := getRandomSpawnPoint rx ry
    (updateP sid
        (fun p => { p with x := spawn.1, y := spawn.2, health := p.maxHealth }) ps,
      [Emit.toAll (Event.playerRespawned sid)])
  else (ps, [])

end ServerJs

/-- A dynamically-typed JavaScript value, as far as the handlers
inspect one: `undefined`/`null`, a number, or a string. -/
inductive JSVal where
  | undef
  | jsNull
  | num (n : ℝ)
  | str (s : String)

/-- JavaScript truthiness for `JSVal`. -/
def JSVal.truthy : JSVal → Prop
  | .undef => False
  | .jsNull => False
  | .num n => n ≠ 0
  | .str s => s ≠ ""

/-- Calling `.trim()` on a dynamic value: only strings have the method;
on anything else the call raises a `TypeError`. -/
def jsTrim : JSVal → Except String String
  | .str s => .ok s.trim
  | _ => .error "TypeError: username.trim is not a function"

namespace ServerJs

open Classical in
/-- The `setUsername` handler (`server.js:131-152`), with the payload as
a dynamic value.  `if (player && username && username.trim().length > 0)`
short-circuits on an absent player or a falsy payload, but the
`.trim()` call itself throws a `TypeError` on a truthy non-string
payload, which escapes the handler (`Except.error`). -/
noncomputable def onSetUsername (ps : Players) (sid : Sid) (username : JSVal) :
    Except String (Players × List Emit) :=
  match lookupP sid ps with
  | none => .ok (ps, [])
  | some p =>
      if username.truthy then
        match jsTrim username with
        | .error e => .error e
        | .ok t =>
            if 0 < t.length then
              (.ok (updateP sid (fun q => { q with name := t.take 15 }) ps,
                [Emit.toAll (Event.playerUpdate sid p.x p.y)]))
            else .ok (ps, [])
      else .ok (ps, [])

end ServerJs

namespace V1

/- Constants of `src/unnamed/part_001`. -/

def MELEE_DAMAGE : ℝ := 50
def MAP_WIDTH : ℝ := 1200
def MAP_HEIGHT : ℝ := 800
def MAX_CONNECTIONS_PER_IP : ℕ := 3

open Classical in
/-- The `move` handler of `src/unnamed/part_001` (lines 202-231):
speed-bounded validation.  The allowed displacement is
`maxSpeed * elapsedSeconds + 20` with `maxSpeed = 15`; an accepted
update is emitted to ALL connections (`io.emit`, line 221), a rejected
one leaves the player untouched and sends one `serverCorrection` to the
requester only.  `(player.lastActivity || Date.now())` and
`(data.timestamp || Date.now())` treat the JavaScript-falsy timestamp 0
as absent. -/
noncomputable def onMove (ps : Players) (sid : Sid) (d : MoveData) (now : ℝ) :
    Players × List Emit :=
  match lookupP sid ps with
  | none => (ps, [])
  | some p =>
      if 0 < p.health then
        let dx := d.x - p.x
        let dy := d.y - p.y
        let distance := Real.sqrt (dx * dx + dy * dy)
        let maxSpeed : ℝ := 15
        let timeSinceLastUpdate :=
          now - (if p.lastActivity = 0 then now else p.lastActivity)
        let allowedDistance := maxSpeed * (timeSinceLastUpdate / 1000) + 20
        if distance ≤ allowedDistance then
          let stamp := match d.timestamp with
            | some t => if t = 0 then now else t
            | none => now
          let p' := { p with
            x := d.x
            y := d.y
            lastActivity := stamp }
          (updateP sid (fun _ => p') ps,
            [Emit.toAll (Event.playerUpdate sid d.x d.y)])
        else
          (ps, [Emit.toOne sid (Event.serverCorrection p.x p.y now)])
      else (ps, [])

/-- Registry state of `part_001`: the players map plus the
monotonically increasing display-number counter `nextPlayerId`. -/
structure GameState where
  players : Players
  nextPlayerId : ℕ

/-- The player object literal built on connection (`part_001:156-167`). -/
def mkPlayer (spawn : ℝ × ℝ) (color : String) (playerNumber : ℕ) (now : ℝ) :
    Player :=
  { x := spawn.1
    y := spawn.2
    health := 100
    maxHealth := 100
    color := color
    name := "Player " ++ toString playerNumber
    angle := 0
    direction := 1
    weaponAngle := 0
    kills := 0
    lastActivity := now
    lastMovementUpdate := 0 }

/-- Registry creation on connection (`part_001:152-199`): draw the
display number (`nextPlayerId++` happens before the guard), then the
duplicate-connection guard — if the identity is already present the
socket is disconnected and nothing else happens (flag `true`);
otherwise the new player is inserted and announced. -/
def createPlayer (st : GameState) (sid : Sid) (spawn : ℝ × ℝ) (color : String)
    (now : ℝ) : GameState × Bool × List Emit :=
  let playerNumber := st.nextPlayerId
  let newPlayer := mkPlayer spawn color playerNumber now
  if (lookupP sid st.players).isSome then
    ({ st with nextPlayerId := st.nextPlayerId + 1 }, true, [])
  else
    let players' := st.players ++ [(sid, newPlayer)]
    ({ players := players', nextPlayerId := st.nextPlayerId + 1 }, false,
      [Emit.toOne sid Event.gameState,
        Emit.toAll (Event.playerUpdate sid spawn.1 spawn.2),
        Emit.toAll (Event.playerCountUpdate players'.length)])

/-- The admission middleware body (`part_001:96-124`) acting on the
connection set of one address: purge entries whose transport is no
longer live; if the remaining set still meets the cap, force-evict all
of it (`forceCleanupIP`, lines 81-93) and start from an empty set; then
register the new identity.  Returns the new set and the set of evicted
identities. -/
def middlewareAdmit (live : Sid → Bool) (conns : Finset Sid) (sid : Sid) :
    Finset Sid × Finset Sid :=
  let purged := conns.filter (fun s => live s = true)
  if MAX_CONNECTIONS_PER_IP ≤ purged.card then ({sid}, purged)
  else (insert sid purged, ∅)

/-- The `ipConnections` table, as a total map from address to the set of
currently admitted identities (an address with no record maps to `∅`). -/
def setConns (m : Addr → Finset Sid) (a : Addr) (s : Finset Sid) :
    Addr → Finset Sid :=
  fun x => if x = a then s else m x

/-- The states the `ipConnections` table can reach: initially empty;
a new connection runs the middleware on its address (`part_001:96-124`);
a disconnect erases one identity (`part_001:127-135`, `313-319`); the
periodic sweeps drop entries whose transport died
(`part_001:330-346`). -/
inductive Reachable : (Addr → Finset Sid) → Prop where
  | init : Reachable (fun _ => ∅)
  | connect (m : Addr → Finset Sid) (live : Sid → Bool) (addr : Addr) (sid : Sid) :
      Reachable m →
      Reachable (setConns m addr (middlewareAdmit live (m addr) sid).1)
  | disconnect (m : Addr → Finset Sid) (addr : Addr) (sid : Sid) :
      Reachable m → Reachable (setConns m addr ((m addr).erase sid))
  | purge (m : Addr → Finset Sid) (live : Sid → Bool) (addr : Addr) :
      Reachable m →
      Reachable (setConns m addr ((m addr).filter (fun s => live s = true)))

/-- Phase one of the 5-second cleanup interval (`part_001:330-346`):
for every tracked address, delete connection entries whose socket is
gone and the corresponding player records (silently, no events), and
drop the address when no live connection remains. -/
def ipSweep (connected : Sid → Bool) :
    List (Addr × List Sid) → Players → List (Addr × List Sid) × Players
  | [], ps => ([], ps)
  | (ip, conns) :: rest, ps =>
      let valid := conns.filter (fun s => connected s)
      let stale := conns.filter (fun s => !connected s)
      let ps1 := ps.filter (fun kp => !stale.contains kp.1)
      let r := ipSweep connected rest ps1
      (if valid.isEmpty then r.1 else (ip, valid) :: r.1, r.2)

open Classical in
/-- Phase two of the 5-second cleanup interval (`part_001:349-357`):
remove every player whose socket is gone or whose `lastActivity` is more
than 15000 ms old, emitting one `playerLeft` per removal.  Returns the
surviving players, the number of removals, and the events. -/
noncomputable def inactiveSweep (connected : Sid → Bool) (now : ℝ) :
    Players → Players × ℕ × List Emit
  | [] => ([], 0, [])
  | (pid, p) :: rest =>
      if connected pid = false ∨ 15000 < now - p.lastActivity then
        let r := inactiveSweep connected now rest
        (r.1, r.2.1 + 1, Emit.toAll (Event.playerLeft pid) :: r.2.2)
      else
        let r := inactiveSweep connected now rest
        ((pid, p) :: r.1, r.2.1, r.2.2)

open Classical in
/-- The whole 5-second cleanup interval (`part_001:324-364`): the IP
phase, then the inactivity phase, then — only if at least one player was
removed in the inactivity phase — a single `playerCountUpdate` with the
new registry size. -/
noncomputable def cleanupSweep (connected : Sid → Bool) (now : ℝ)
    (ipConns : List (Addr × List Sid)) (ps : Players) :
    List (Addr × List Sid) × Players × List Emit :=
  let r1 := ipSweep connected ipConns ps
  let r2 := inactiveSweep connected now r1.2
  (r1.1, r2.1,
    r2.2.2 ++ if 0 < r2.2.1 then
      [Emit.toAll (Event.playerCountUpdate r2.1.length)] else [])

open Classical in
/-- The 16-millisecond game loop (`part_001:367-380`): remove every
player inactive for more than 30000 ms, emitting `playerLeft` followed
by `playerCountUpdate` (with the size right after that deletion) per
removal.  `n` is the current registry size. -/
noncomputable def gameLoopSweep (now : ℝ) : Players → ℕ → Players × List Emit
  | [], _ => ([], [])
  | (pid, p) :: rest, n =>
      if 30000 < now - p.lastActivity then
        let r := gameLoopSweep now rest (n - 1)
        (r.1, Emit.toAll (Event.playerLeft pid) ::
          Emit.toAll (Event.playerCountUpdate (n - 1)) :: r.2)
      else
        let r := gameLoopSweep now rest n
        ((pid, p) :: r.1, r.2)

/-- Entry point of the game loop on the full registry. -/
noncomputable def onGameLoop (now : ℝ) (ps : Players) : Players × List Emit :=
  gameLoopSweep now ps ps.length

end V1

/- ### Helper lemmas -/

theorem lookupP_updateP (sid : Sid) (f : Player → Player) (ps : Players) :
    lookupP sid (updateP sid f ps) = (lookupP sid ps).map f := by
  induction ps with
  | nil => simp
  | cons hd tl ih =>
      obtain ⟨k, p⟩ := hd
      by_cases hk : k = sid <;> simp [hk, ih]

theorem lookupP_updateP_ne (sid tid : Sid) (hne : tid ≠ sid)
    (f : Player → Player) (ps : Players) :
    lookupP tid (updateP sid f ps) = lookupP tid ps := by
  induction ps with
  | nil => simp
  | cons hd tl ih =>
      obtain ⟨k, p⟩ := hd
      by_cases hk : k = sid
      · subst hk
        have : ¬ k = tid := fun h => hne h.symm
        simp [this, ih]
      · by_cases ht : k = tid <;> simp [hk, ht, hne, ih]

theorem atan2_zero_of_nonneg (x : ℝ) (hx : 0 ≤ x) : atan2 0 x = 0 := by
  unfold atan2
  rw [show ((x : ℂ) + (0 : ℝ) * Complex.I) = (x : ℂ) by simp]
  exact Complex.arg_ofReal_of_nonneg hx

/-- On inputs whose raw absolute difference is at most `2π`, the single
fold performed by the handler agrees with the true angular distance
normalized into `[0, π]`. -/
theorem normAngleDiff_eq_spec (b a : ℝ) (h : |b - a| ≤ 2 * Real.pi) :
    normAngleDiff b a = specAngularDistance b a := by
  unfold normAngleDiff specAngularDistance
  set x := b - a with hx
  by_cases hc : Real.pi < |x|
  · rw [if_pos hc]
    rcases abs_cases x with ⟨habs, hsgn⟩ | ⟨habs, hsgn⟩
    · have hmod : toIocMod Real.two_pi_pos (-Real.pi) x = x - 2 * Real.pi := by
        rw [toIocMod_eq_iff]
        refine ⟨⟨?_, ?_⟩, ⟨1, by rw [one_zsmul]; ring⟩⟩
        · have : Real.pi < x := habs ▸ hc
          linarith
        · have : x ≤ 2 * Real.pi := habs ▸ h
          linarith
      rw [habs] at h
      rw [hmod, habs, abs_of_nonpos (show x - 2 * Real.pi ≤ 0 by linarith)]
      ring
    · have hxneg : x < 0 := by
        have hpi := Real.pi_pos
        nlinarith [hc, habs]
      have hmod : toIocMod Real.two_pi_pos (-Real.pi) x = x + 2 * Real.pi := by
        rw [toIocMod_eq_iff]
        refine ⟨⟨?_, ?_⟩, ⟨-1, by rw [neg_zsmul, one_zsmul]; ring⟩⟩
        · have : -x ≤ 2 * Real.pi := habs ▸ h
          linarith
        · have : Real.pi < -x := habs ▸ hc
          linarith
      rw [habs] at h
      rw [hmod, habs, abs_of_nonneg (show 0 ≤ x + 2 * Real.pi by linarith)]
      ring
  · rw [if_neg hc]
    have hle := abs_le.mp (not_lt.mp hc)
    rcases eq_or_lt_of_le hle.1 with heq | hlt
    · have hmod : toIocMod Real.two_pi_pos (-Real.pi) x = Real.pi := by
        rw [toIocMod_eq_iff]
        refine ⟨⟨?_, ?_⟩, ⟨-1, by rw [neg_zsmul, one_zsmul]; linarith⟩⟩
        · linarith [Real.pi_pos]
        · linarith
      rw [hmod, ← heq, abs_neg]
    · have hmod : toIocMod Real.two_pi_pos (-Real.pi) x = x :=
        (toIocMod_eq_self Real.two_pi_pos).mpr ⟨hlt, by linarith [hle.2]⟩
      rw [hmod]

theorem specAngularDistance_self (a : ℝ) : specAngularDistance a a = 0 := by
  unfold specAngularDistance
  rw [sub_self,
    (toIocMod_eq_self Real.two_pi_pos).mpr
      ⟨by linarith [Real.pi_pos], by linarith [Real.pi_pos]⟩, abs_zero]

/-- A player fixture for concrete evaluations: at `(x, y)`, with the
given health, otherwise as freshly created at time 1000. -/
def mkP (x y health : ℝ) : Player :=
  { x := x
    y := y
    health := health
    maxHealth := 100
    color := "#00d4ff"
    name := "Player 1"
    angle := 0
    direction := 1
    weaponAngle := 0
    kills := 0
    lastActivity := 1000
    lastMovementUpdate := 0 }

theorem sqrt_2500_le_130 :
    Real.sqrt ((50 : ℝ) * 50 + 0 * 0) ≤ 130 := by
  rw [show ((50 : ℝ) * 50 + 0 * 0) = 50 * 50 by norm_num,
    Real.sqrt_mul_self (by norm_num : (0 : ℝ) ≤ 50)]
  norm_num

/- ### C1: the cone melee predicate -/

/-- **C1** (amended).  The cone hit test of the `attack` handler accepts
a target iff its distance is at most `MELEE_RANGE` plus the per-player
radius buffer and the angular difference between the attacker→target
bearing and the aim angle, normalized into `[0, π]`, is at most half the
melee cone angle — PROVIDED the raw absolute difference between bearing
and aim is at most `2π` (which holds whenever the client sends an aim
angle in `[-π, π]`, the range bearings live in).  For larger raw
differences the handler's single `2π - d` fold goes negative and the
angle test accepts every bearing (see `C1_counterexample`). -/
theorem C1_cone_melee_predicate (att tgt : Player) (aim : ℝ)
    (h : |atan2 (tgt.y - att.y) (tgt.x - att.x) - aim| ≤ 2 * Real.pi) :
    ServerJs.coneHit att aim tgt ↔
      (Real.sqrt ((tgt.x - att.x) * (tgt.x - att.x) +
            (tgt.y - att.y) * (tgt.y - att.y))
          ≤ ServerJs.MELEE_RANGE + (ServerJs.PLAYER_RADIUS + 10) ∧
        specAngularDistance (atan2 (tgt.y - att.y) (tgt.x - att.x)) aim
          ≤ ServerJs.MELEE_ANGLE / 2) := by
  unfold ServerJs.coneHit
  rw [normAngleDiff_eq_spec _ _ h]

/-- Witness for C1: an attacker at the origin aiming at angle 0 hits a
living target 50 units to its right. -/
theorem C1_cone_melee_predicate_witness :
    ServerJs.coneHit (mkP 0 0 100) 0 (mkP 50 0 100) := by
  have hb : atan2 ((mkP 50 0 100).y - (mkP 0 0 100).y)
      ((mkP 50 0 100).x - (mkP 0 0 100).x) = 0 := by
    show atan2 (0 - 0) (50 - 0) = 0
    rw [show ((0 : ℝ) - 0) = 0 by norm_num, show ((50 : ℝ) - 0) = 50 by norm_num]
    exact atan2_zero_of_nonneg 50 (by norm_num)
  refine (C1_cone_melee_predicate (mkP 0 0 100) (mkP 50 0 100) 0 ?_).mpr ⟨?_, ?_⟩
  · rw [hb]
    simp [abs_zero]
    positivity
  · show Real.sqrt ((50 - 0) * (50 - 0) + (0 - 0) * (0 - 0))
        ≤ ServerJs.MELEE_RANGE + (ServerJs.PLAYER_RADIUS + 10)
    rw [show ((50 : ℝ) - 0) * (50 - 0) + (0 - 0) * (0 - 0) = 50 * 50 + 0 * 0 by
      norm_num]
    rw [show ServerJs.MELEE_RANGE + (ServerJs.PLAYER_RADIUS + 10) = 130 by
      norm_num [ServerJs.MELEE_RANGE, ServerJs.PLAYER_RADIUS]]
    exact sqrt_2500_le_130
  · rw [hb, specAngularDistance_self]
    have := Real.pi_pos
    rw [show ServerJs.MELEE_ANGLE / 2 = Real.pi / 6 by
      rw [ServerJs.MELEE_ANGLE]; ring]
    linarith

/-- Counterexample to C1 as stated: with the client-supplied aim angle
`3π`, the target straight to the attacker's right (bearing 0, distance
50, within range) is hit by the code — `|0 - 3π| = 3π` folds once to
`-π ≤ MELEE_ANGLE/2` — even though the genuine angular difference
normalized into `[0, π]` is `π`, far more than half the 60° cone. -/
theorem C1_counterexample :
    ServerJs.coneHit (mkP 0 0 100) (3 * Real.pi) (mkP 50 0 100) ∧
    ¬ specAngularDistance
        (atan2 ((mkP 50 0 100).y - (mkP 0 0 100).y)
          ((mkP 50 0 100).x - (mkP 0 0 100).x))
        (3 * Real.pi) ≤ ServerJs.MELEE_ANGLE / 2 := by
  have hpi := Real.pi_pos
  have hb : atan2 ((mkP 50 0 100).y - (mkP 0 0 100).y)
      ((mkP 50 0 100).x - (mkP 0 0 100).x) = 0 := by
    show atan2 (0 - 0) (50 - 0) = 0
    rw [show ((0 : ℝ) - 0) = 0 by norm_num, show ((50 : ℝ) - 0) = 50 by norm_num]
    exact atan2_zero_of_nonneg 50 (by norm_num)
  have hhalf : ServerJs.MELEE_ANGLE / 2 = Real.pi / 6 := by
    rw [ServerJs.MELEE_ANGLE]; ring
  refine ⟨⟨?_, ?_⟩, ?_⟩
  · show Real.sqrt ((50 - 0) * (50 - 0) + (0 - 0) * (0 - 0))
        ≤ ServerJs.MELEE_RANGE + (ServerJs.PLAYER_RADIUS + 10)
    rw [show ((50 : ℝ) - 0) * (50 - 0) + (0 - 0) * (0 - 0) = 50 * 50 + 0 * 0 by
      norm_num]
    rw [show ServerJs.MELEE_RANGE + (ServerJs.PLAYER_RADIUS + 10) = 130 by
      norm_num [ServerJs.MELEE_RANGE, ServerJs.PLAYER_RADIUS]]
    exact sqrt_2500_le_130
  · show normAngleDiff (atan2 ((mkP 50 0 100).y - (mkP 0 0 100).y)
        ((mkP 50 0 100).x - (mkP 0 0 100).x)) (3 * Real.pi)
        ≤ ServerJs.MELEE_ANGLE / 2
    rw [hb, hhalf]
    unfold normAngleDiff
    rw [zero_sub, abs_neg, abs_of_nonneg (by linarith : (0 : ℝ) ≤ 3 * Real.pi),
      if_pos (by linarith : Real.pi < 3 * Real.pi)]
    linarith
  · rw [hb, hhalf]
    unfold specAngularDistance
    have hmod : toIocMod Real.two_pi_pos (-Real.pi) (0 - 3 * Real.pi) = Real.pi := by
      rw [toIocMod_eq_iff]
      refine ⟨⟨by linarith, by linarith⟩, ⟨-2, ?_⟩⟩
      rw [zsmul_eq_mul]
      push_cast
      ring
    rw [hmod, abs_of_nonneg (le_of_lt hpi)]
    intro hcon
    linarith

/- ### C2: speed-bounded movement validation (part_001 variant) -/

/-- **C2**.  For a present, living player with last accepted position
`(p.x, p.y)` and last accepted activity time `p.lastActivity`, a `move`
request in the `part_001` variant is accepted iff the requested
displacement is at most `maxSpeed * elapsedSeconds + 20` (with
`maxSpeed = 15`); acceptance is observable as the single `playerUpdate`
broadcast, an accepted request sets the position to the request, and a
rejected request leaves the registry unchanged and emits exactly one
`serverCorrection`, addressed to the requesting connection only and
carrying the last-accepted authoritative position. -/
theorem C2_movement_validation (ps : Players) (sid : Sid) (p : Player)
    (d : MoveData) (now : ℝ)
    (hp : lookupP sid ps = some p) (halive : 0 < p.health)
    (hlast : p.lastActivity ≠ 0) :
    (Real.sqrt ((d.x - p.x) * (d.x - p.x) + (d.y - p.y) * (d.y - p.y))
          ≤ 15 * ((now - p.lastActivity) / 1000) + 20 ↔
        (V1.onMove ps sid d now).2 =
          [Emit.toAll (Event.playerUpdate sid d.x d.y)]) ∧
    (Real.sqrt ((d.x - p.x) * (d.x - p.x) + (d.y - p.y) * (d.y - p.y))
          ≤ 15 * ((now - p.lastActivity) / 1000) + 20 →
        ∃ la, (V1.onMove ps sid d now).1 =
          updateP sid (fun _ => { p with x := d.x, y := d.y, lastActivity := la }) ps) ∧
    (¬ Real.sqrt ((d.x - p.x) * (d.x - p.x) + (d.y - p.y) * (d.y - p.y))
          ≤ 15 * ((now - p.lastActivity) / 1000) + 20 →
        V1.onMove ps sid d now =
          (ps, [Emit.toOne sid (Event.serverCorrection p.x p.y now)])) := by
  have hred : V1.onMove ps sid d now =
      if Real.sqrt ((d.x - p.x) * (d.x - p.x) + (d.y - p.y) * (d.y - p.y))
          ≤ 15 * ((now - p.lastActivity) / 1000) + 20 then
        (updateP sid (fun _ => { p with
            x := d.x
            y := d.y
            lastActivity :=
              (match d.timestamp with
                | some t => if t = 0 then now else t
                | none => now) }) ps,
          [Emit.toAll (Event.playerUpdate sid d.x d.y)])
      else (ps, [Emit.toOne sid (Event.serverCorrection p.x p.y now)]) := by
    unfold V1.onMove
    rw [hp]
    simp only [if_neg hlast, if_pos halive]
  by_cases hd : Real.sqrt ((d.x - p.x) * (d.x - p.x) + (d.y - p.y) * (d.y - p.y))
      ≤ 15 * ((now - p.lastActivity) / 1000) + 20
  · rw [hred, if_pos hd]
    exact ⟨⟨fun _ => rfl, fun _ => hd⟩, fun _ => ⟨_, rfl⟩, fun hc => absurd hd hc⟩
  · rw [hred, if_neg hd]
    refine ⟨⟨fun h => absurd h hd, fun heq => ?_⟩, fun h => absurd h hd, fun _ => rfl⟩
    simp at heq

/-- Witness for C2: a player at the origin moving to `(3, 4)` with no
elapsed time is within the 20-unit slack, so the update is accepted and
broadcast. -/
theorem C2_movement_validation_witness :
    (V1.onMove [("a", mkP 0 0 100)] "a"
        { x := 3, y := 4, direction := none, weaponAngle := none, timestamp := none }
        1000).2 =
      [Emit.toAll (Event.playerUpdate "a" 3 4)] := by
  refine ((C2_movement_validation [("a", mkP 0 0 100)] "a" (mkP 0 0 100)
      { x := 3, y := 4, direction := none, weaponAngle := none, timestamp := none }
      1000 (by simp) (by norm_num [mkP]) (by norm_num [mkP])).1).mp ?_
  show Real.sqrt ((3 - (mkP 0 0 100).x) * (3 - (mkP 0 0 100).x) +
      (4 - (mkP 0 0 100).y) * (4 - (mkP 0 0 100).y))
      ≤ 15 * ((1000 - (mkP 0 0 100).lastActivity) / 1000) + 20
  rw [show ((3 : ℝ) - (mkP 0 0 100).x) * (3 - (mkP 0 0 100).x) +
      (4 - (mkP 0 0 100).y) * (4 - (mkP 0 0 100).y) = 5 * 5 by norm_num [mkP],
    Real.sqrt_mul_self (by norm_num : (0 : ℝ) ≤ 5)]
  norm_num [mkP]

/- ### C10: inputs from absent or dead players are no-ops -/

/-- **C10**.  A `move`, `attack`, `areaAttack` or `mobileCollisionAttack`
event from a connection whose player record is absent, or whose health
is ≤ 0, leaves the registry completely unchanged and emits nothing to
anyone. -/
theorem C10_dead_input_frame (ps : Players) (sid : Sid) (d : MoveData)
    (aim dir bX bY bS now : ℝ)
    (h : lookupP sid ps = none ∨ ∃ p, lookupP sid ps = some p ∧ p.health ≤ 0) :
    ServerJs.onMove ps sid d now = (ps, []) ∧
    ServerJs.onAttack ps sid aim now = (ps, []) ∧
    ServerJs.onAreaAttack ps sid dir now = (ps, []) ∧
    ServerJs.onMobileCollisionAttack ps sid bX bY bS now = (ps, []) := by
  rcases h with hnone | ⟨p, hp, hdead⟩
  · refine ⟨?_, ?_, ?_, ?_⟩
    · unfold ServerJs.onMove
      rw [hnone]
    · unfold ServerJs.onAttack
      rw [hnone]
    · unfold ServerJs.onAreaAttack
      rw [hnone]
    · unfold ServerJs.onMobileCollisionAttack
      rw [hnone]
  · have hno : ¬ 0 < p.health := not_lt.mpr hdead
    refine ⟨?_, ?_, ?_, ?_⟩
    · unfold ServerJs.onMove
      rw [hp]
      simp only [if_neg hno]
    · unfold ServerJs.onAttack
      rw [hp]
      simp only [if_neg hno]
    · unfold ServerJs.onAreaAttack
      rw [hp]
      simp only [if_neg hno]
    · unfold ServerJs.onMobileCollisionAttack
      rw [hp]
      simp only [if_neg hno]

/-- Witness for C10: an attack sent by a player with 0 health changes
nothing and emits nothing. -/
theorem C10_dead_input_frame_witness :
    ServerJs.onAttack [("a", mkP 0 0 0)] "a" 0 1000 = ([("a", mkP 0 0 0)], []) :=
  (C10_dead_input_frame [("a", mkP 0 0 0)] "a"
    { x := 0, y := 0, direction := none, weaponAngle := none, timestamp := none }
    0 0 0 0 0 1000
    (Or.inr ⟨mkP 0 0 0, by simp, by norm_num [mkP]⟩)).2.1

/- ### C5: registry create is idempotent -/

theorem createPlayer_present (st : V1.GameState) (sid : Sid) (sp : ℝ × ℝ)
    (c : String) (t : ℝ) (h : (lookupP sid st.players).isSome = true) :
    (V1.createPlayer st sid sp c t).1.players = st.players := by
  unfold V1.createPlayer
  simp only [h, if_true]

/-- **C5**.  Creating a player for an identity that is already present
is ignored by the duplicate-connection guard: `create` twice with the
same identity leaves the registry of the first `create` unchanged —
the same records (hence the same position, color and name for that
identity) and the same count.  (Only the internal display-number
counter `nextPlayerId` advances, as it is incremented before the
guard runs.) -/
theorem C5_create_idempotent (st : V1.GameState) (sid : Sid)
    (sp sp' : ℝ × ℝ) (c c' : String) (t t' : ℝ) :
    (V1.createPlayer (V1.createPlayer st sid sp c t).1 sid sp' c' t').1.players =
      (V1.createPlayer st sid sp c t).1.players ∧
    (V1.createPlayer (V1.createPlayer st sid sp c t).1 sid sp' c' t').1.players.length =
      (V1.createPlayer st sid sp c t).1.players.length := by
  have hpresent : (lookupP sid (V1.createPlayer st sid sp c t).1.players).isSome = true := by
    unfold V1.createPlayer
    by_cases h : (lookupP sid st.players).isSome = true
    · simp only [h, if_true]
    · simp only [h, if_false]
      exact Option.isSome_iff_ne_none.mpr (lookupP_append_self sid _ st.players)
  have heq := createPlayer_present (V1.createPlayer st sid sp c t).1 sid sp' c' t' hpresent
  exact ⟨heq, by rw [heq]⟩

/- ### C6: respawn schedules one deferred revive, checked at fire time -/

/-- **C6**.  A `respawn` request from a present player schedules exactly
one deferred revive, firing `RESPAWN_TIME = 3000` ms later.  When the
timer fires and the player still exists, its health becomes exactly
`maxHealth` and its position a fresh random spawn point inside
`[margin, width - margin] × [margin, height - margin]` (margin 100), and
one `playerRespawned` broadcast goes out; if the record was removed
before the timer fired, the deferred mutation is a complete no-op and no
error is raised. -/
theorem C6_respawn_semantics (ps : Players) (sid : Sid) (p : Player)
    (now rx ry : ℝ) (hp : lookupP sid ps = some p)
    (hrx0 : 0 ≤ rx) (hrx1 : rx < 1) (hry0 : 0 ≤ ry) (hry1 : ry < 1) :
    ServerJs.onRespawn ps sid now = [⟨sid, now + 3000⟩] ∧
    lookupP sid (ServerJs.respawnFire ps sid rx ry).1 =
      some { p with
        x := (ServerJs.getRandomSpawnPoint rx ry).1
        y := (ServerJs.getRandomSpawnPoint rx ry).2
        health := p.maxHealth } ∧
    (ServerJs.respawnFire ps sid rx ry).2 =
      [Emit.toAll (Event.playerRespawned sid)] ∧
    100 ≤ (ServerJs.getRandomSpawnPoint rx ry).1 ∧
    (ServerJs.getRandomSpawnPoint rx ry).1 ≤ ServerJs.MAP_WIDTH - 100 ∧
    100 ≤ (ServerJs.getRandomSpawnPoint rx ry).2 ∧
    (ServerJs.getRandomSpawnPoint rx ry).2 ≤ ServerJs.MAP_HEIGHT - 100 ∧
    (∀ ps' : Players, lookupP sid ps' = none →
        ServerJs.respawnFire ps' sid rx ry = (ps', [])) := by
  have hsome : (lookupP sid ps).isSome = true := by rw [hp]; rfl
  refine ⟨?_, ?_, ?_, ?_, ?_, ?_, ?_, ?_⟩
  · unfold ServerJs.onRespawn
    simp only [hsome, if_true]
    rfl
  · unfold ServerJs.respawnFire
    simp [hp, lookupP_updateP]
  · unfold ServerJs.respawnFire
    simp [hp]
  · show (100 : ℝ) ≤ 100 + rx * (ServerJs.MAP_WIDTH - 2 * 100)
    have h0 : (0 : ℝ) ≤ rx * (ServerJs.MAP_WIDTH - 2 * 100) :=
      mul_nonneg hrx0 (by norm_num [ServerJs.MAP_WIDTH])
    linarith
  · show 100 + rx * (ServerJs.MAP_WIDTH - 2 * 100) ≤ ServerJs.MAP_WIDTH - 100
    have h1 : rx * (ServerJs.MAP_WIDTH - 2 * 100) ≤ ServerJs.MAP_WIDTH - 2 * 100 :=
      mul_le_of_le_one_left (by norm_num [ServerJs.MAP_WIDTH]) (le_of_lt hrx1)
    linarith
  · show (100 : ℝ) ≤ 100 + ry * (ServerJs.MAP_HEIGHT - 2 * 100)
    have h0 : (0 : ℝ) ≤ ry * (ServerJs.MAP_HEIGHT - 2 * 100) :=
      mul_nonneg hry0 (by norm_num [ServerJs.MAP_HEIGHT])
    linarith
  · show 100 + ry * (ServerJs.MAP_HEIGHT - 2 * 100) ≤ ServerJs.MAP_HEIGHT - 100
    have h1 : ry * (ServerJs.MAP_HEIGHT - 2 * 100) ≤ ServerJs.MAP_HEIGHT - 2 * 100 :=
      mul_le_of_le_one_left (by norm_num [ServerJs.MAP_HEIGHT]) (le_of_lt hry1)
    linarith
  · intro ps' h'
    unfold ServerJs.respawnFire
    simp only [h']
    rfl

/-- Witness for C6: a present player's respawn request schedules one
revive 3000 ms out. -/
theorem C6_respawn_semantics_witness :
    ServerJs.onRespawn [("a", mkP 0 0 0)] "a" 0 = [⟨"a", 0 + 3000⟩] :=
  (C6_respawn_semantics [("a", mkP 0 0 0)] "a" (mkP 0 0 0) 0 0 0
    (by simp) le_rfl (by norm_num) le_rfl (by norm_num)).1

/- ### C4: per-address admission cap -/

theorem middlewareAdmit_card_le (live : Sid → Bool) (conns : Finset Sid)
    (sid : Sid) :
    ((V1.middlewareAdmit live conns sid).1).card ≤ V1.MAX_CONNECTIONS_PER_IP := by
  show (if V1.MAX_CONNECTIONS_PER_IP ≤ (conns.filter (fun s => live s = true)).card
      then ({sid}, conns.filter (fun s => live s = true))
      else (insert sid (conns.filter (fun s => live s = true)), (∅ : Finset Sid))).1.card
      ≤ V1.MAX_CONNECTIONS_PER_IP
  by_cases hc : V1.MAX_CONNECTIONS_PER_IP ≤
      (conns.filter (fun s => live s = true)).card
  · rw [if_pos hc]
    simp [V1.MAX_CONNECTIONS_PER_IP]
  · rw [if_neg hc]
    have h1 := Finset.card_insert_le sid (conns.filter (fun s => live s = true))
    have h2 := not_le.mp hc
    show (insert sid (conns.filter (fun s => live s = true))).card
        ≤ V1.MAX_CONNECTIONS_PER_IP
    omega

/-- **C4**.  (1) Along every reachable history of the `ipConnections`
table, every address holds at most `MAX_CONNECTIONS_PER_IP = 3`
admitted identities.  (2) Whenever a new connection arrives while the
live (post-purge) set for its address still meets or exceeds the cap,
the middleware force-evicts the ENTIRE prior live set — not a selective
subset — and registers only the new identity. -/
theorem C4_admission_cap :
    (∀ m : Addr → Finset Sid, V1.Reachable m →
        ∀ a : Addr, (m a).card ≤ V1.MAX_CONNECTIONS_PER_IP) ∧
    (∀ (live : Sid → Bool) (conns : Finset Sid) (sid : Sid),
        V1.MAX_CONNECTIONS_PER_IP ≤ (conns.filter (fun s => live s = true)).card →
        V1.middlewareAdmit live conns sid =
          ({sid}, conns.filter (fun s => live s = true))) := by
  constructor
  · intro m hreach
    induction hreach with
    | init =>
        intro a
        simp [V1.MAX_CONNECTIONS_PER_IP]
    | connect m live addr sid hm ih =>
        intro a
        unfold V1.setConns
        by_cases ha : a = addr
        · rw [if_pos ha]
          exact middlewareAdmit_card_le live (m addr) sid
        · rw [if_neg ha]
          exact ih a
    | disconnect m addr sid hm ih =>
        intro a
        unfold V1.setConns
        by_cases ha : a = addr
        · rw [if_pos ha]
          exact le_trans (Finset.card_erase_le) (ih addr)
        · rw [if_neg ha]
          exact ih a
    | purge m live addr hm ih =>
        intro a
        unfold V1.setConns
        by_cases ha : a = addr
        · rw [if_pos ha]
          exact le_trans (Finset.card_filter_le _ _) (ih addr)
        · rw [if_neg ha]
          exact ih a
  · intro live conns sid hc
    show (if V1.MAX_CONNECTIONS_PER_IP ≤ (conns.filter (fun s => live s = true)).card
        then ({sid}, conns.filter (fun s => live s = true))
        else (insert sid (conns.filter (fun s => live s = true)), (∅ : Finset Sid)))
        = ({sid}, conns.filter (fun s => live s = true))
    rw [if_pos hc]

/-- Witness for C4: one admission from a fresh table stays within the
cap, and an address at the cap with three live connections is evicted
wholesale when a fourth arrives. -/
theorem C4_admission_cap_witness :
    (V1.setConns (fun _ => ∅) "ip"
        (V1.middlewareAdmit (fun _ => true) ((fun _ => (∅ : Finset Sid)) "ip") "s1").1
        "ip").card ≤ V1.MAX_CONNECTIONS_PER_IP ∧
    V1.middlewareAdmit (fun _ => true) {"x", "y", "z"} "s2" =
      ({"s2"}, Finset.filter (fun s => (fun _ => true) s = true) {"x", "y", "z"}) :=
  ⟨C4_admission_cap.1 _
      (V1.Reachable.connect (fun _ => ∅) (fun _ => true) "ip" "s1" V1.Reachable.init)
      "ip",
    C4_admission_cap.2 (fun _ => true) {"x", "y", "z"} "s2" (by decide)⟩

/- ### C7: delivery mode of movement broadcasts -/

theorem serverjs_onMove_accepted (ps : Players) (sid : Sid) (p : Player)
    (d : MoveData) (now : ℝ) (hp : lookupP sid ps = some p)
    (halive : 0 < p.health) (hthrottle : 16 ≤ now - p.lastMovementUpdate) :
    (ServerJs.onMove ps sid d now).2 =
      [Emit.toAllExcept sid (Event.playerUpdate sid d.x d.y)] := by
  unfold ServerJs.onMove
  rw [hp]
  simp only [if_pos halive, if_pos hthrottle]

theorem v1_onMove_accepted (ps : Players) (sid : Sid) (p : Player)
    (d : MoveData) (now : ℝ) (hp : lookupP sid ps = some p)
    (halive : 0 < p.health) (hlast : p.lastActivity ≠ 0)
    (hacc : Real.sqrt ((d.x - p.x) * (d.x - p.x) + (d.y - p.y) * (d.y - p.y))
      ≤ 15 * ((now - p.lastActivity) / 1000) + 20) :
    (V1.onMove ps sid d now).2 =
      [Emit.toAll (Event.playerUpdate sid d.x d.y)] := by
  unfold V1.onMove
  rw [hp]
  simp only [if_neg hlast, if_pos halive, if_pos hacc]

/-- **C7** (amended).  In `server.js`, every event the `move` handler
emits is a broadcast to all connections except the mover, and is never
delivered back to the sending connection; an accepted update emits
exactly one such broadcast.  The delivery mode is NOT fixed for the
movement event type at every call site of the repository, however: the
`part_001` variant emits accepted moves with `io.emit`, to all
connections including the mover (see `C7_counterexample`). -/
theorem C7_movement_broadcast_exclusion :
    (∀ (ps : Players) (sid : Sid) (d : MoveData) (now : ℝ) (e : Emit),
        e ∈ (ServerJs.onMove ps sid d now).2 →
          e = Emit.toAllExcept sid (Event.playerUpdate sid d.x d.y) ∧
            ¬ e.deliveredTo sid) ∧
    (∀ (ps : Players) (sid : Sid) (p : Player) (d : MoveData) (now : ℝ),
        lookupP sid ps = some p → 0 < p.health → 16 ≤ now - p.lastMovementUpdate →
          (ServerJs.onMove ps sid d now).2 =
            [Emit.toAllExcept sid (Event.playerUpdate sid d.x d.y)]) ∧
    (∀ (ps : Players) (sid : Sid) (p : Player) (d : MoveData) (now : ℝ),
        lookupP sid ps = some p → 0 < p.health → p.lastActivity ≠ 0 →
          Real.sqrt ((d.x - p.x) * (d.x - p.x) + (d.y - p.y) * (d.y - p.y))
              ≤ 15 * ((now - p.lastActivity) / 1000) + 20 →
          (V1.onMove ps sid d now).2 =
              [Emit.toAll (Event.playerUpdate sid d.x d.y)] ∧
            (Emit.toAll (Event.playerUpdate sid d.x d.y)).deliveredTo sid) := by
  refine ⟨?_, ?_, ?_⟩
  · intro ps sid d now e he
    unfold ServerJs.onMove at he
    split at he
    · simp at he
    · split at he
      · split at he
        · simp at he
          subst he
          exact ⟨rfl, by simp [Emit.deliveredTo]⟩
        · simp at he
      · simp at he
  · intro ps sid p d now hp halive hthrottle
    exact serverjs_onMove_accepted ps sid p d now hp halive hthrottle
  · intro ps sid p d now hp halive hlast hacc
    exact ⟨v1_onMove_accepted ps sid p d now hp halive hlast hacc,
      trivial⟩

/-- Witness for C7: a concrete accepted `server.js` move broadcast is a
`toAllExcept` for the mover and is not delivered back to it. -/
theorem C7_movement_broadcast_exclusion_witness :
    Emit.toAllExcept "a" (Event.playerUpdate "a" 3 4) =
        Emit.toAllExcept "a" (Event.playerUpdate "a" 3 4) ∧
      ¬ (Emit.toAllExcept "a" (Event.playerUpdate "a" 3 4)).deliveredTo "a" :=
  C7_movement_broadcast_exclusion.1 [("a", mkP 0 0 100)] "a"
    { x := 3, y := 4, direction := none, weaponAngle := none, timestamp := none }
    16 (Emit.toAllExcept "a" (Event.playerUpdate "a" 3 4))
    (by
      rw [serverjs_onMove_accepted [("a", mkP 0 0 100)] "a" (mkP 0 0 100)
        { x := 3, y := 4, direction := none, weaponAngle := none, timestamp := none }
        16 (by simp) (by norm_num [mkP]) (by norm_num [mkP])]
      simp)

/-- Counterexample to C7 as stated: in the `part_001` variant an
accepted movement update is emitted with `io.emit`, i.e. to every
connection including the mover's own, so the all-but-sender delivery
mode is not fixed for the movement event type at every call site. -/
theorem C7_counterexample :
    (V1.onMove [("a", mkP 0 0 100)] "a"
        { x := 3, y := 4, direction := none, weaponAngle := none, timestamp := none }
        1000).2 =
      [Emit.toAll (Event.playerUpdate "a" 3 4)] ∧
    (Emit.toAll (Event.playerUpdate "a" 3 4)).deliveredTo "a" := by
  refine ⟨?_, trivial⟩
  apply v1_onMove_accepted [("a", mkP 0 0 100)] "a" (mkP 0 0 100) _ 1000
  · simp
  · norm_num [mkP]
  · norm_num [mkP]
  · rw [show ((3 : ℝ) - (mkP 0 0 100).x) * (3 - (mkP 0 0 100).x) +
        (4 - (mkP 0 0 100).y) * (4 - (mkP 0 0 100).y) = 5 * 5 by norm_num [mkP],
      Real.sqrt_mul_self (by norm_num : (0 : ℝ) ≤ 5)]
    norm_num [mkP]

/- ### C9: malformed input is dropped silently — except for a TypeError -/

/-- **C9** (documenting the code bug).  Inputs with an unknown identity
or a falsy payload are indeed silently dropped (`Except.ok`, state
unchanged, nothing emitted), but a `setUsername` event whose payload is
a truthy non-string — e.g. the number 42 — reaches
`username.trim()` and raises a `TypeError` that escapes the handler
(`Except.error`), contradicting the specified error-handling design
(§7: nothing fatal, malformed input silently dropped). -/
theorem C9_malformed_input :
    ServerJs.onSetUsername [("a", mkP 0 0 100)] "a" (JSVal.num 42) =
      Except.error "TypeError: username.trim is not a function" ∧
    ServerJs.onSetUsername [] "ghost" (JSVal.str "Bob") = Except.ok ([], []) ∧
    ServerJs.onSetUsername [("a", mkP 0 0 100)] "a" JSVal.undef =
      Except.ok ([("a", mkP 0 0 100)], []) := by
  refine ⟨?_, ?_, ?_⟩
  · unfold ServerJs.onSetUsername
    rw [show lookupP "a" [("a", mkP 0 0 100)] = some (mkP 0 0 100) by simp]
    norm_num [JSVal.truthy, jsTrim]
  · unfold ServerJs.onSetUsername
    rfl
  · unfold ServerJs.onSetUsername
    rw [show lookupP "a" [("a", mkP 0 0 100)] = some (mkP 0 0 100) by simp]
    simp [JSVal.truthy]

/- ### C8: the liveness sweep -/

/-- Does this emitted event announce `playerLeft` for `sid`? -/
def isPlayerLeft (sid : Sid) : Emit → Bool
  | .toAll (.playerLeft s) => s == sid
  | _ => false

/-- Is this emitted event a `playerCountUpdate` broadcast? -/
def isCountUpdate : Emit → Bool
  | .toAll (.playerCountUpdate _) => true
  | _ => false

theorem inactiveSweep_no_countUpdate (connected : Sid → Bool) (now : ℝ)
    (ps : Players) :
    (V1.inactiveSweep connected now ps).2.2.filter isCountUpdate = [] := by
  induction ps with
  | nil => simp [V1.inactiveSweep]
  | cons hd tl ih =>
      obtain ⟨pid, p⟩ := hd
      unfold V1.inactiveSweep
      by_cases hc : connected pid = false ∨ 15000 < now - p.lastActivity
      · simp only [if_pos hc]
        simp [isCountUpdate, ih]
      · simp only [if_neg hc]
        simpa using ih

theorem inactiveSweep_notmem (connected : Sid → Bool) (now : ℝ)
    (ps : Players) (pid : Sid) (hnm : pid ∉ ps.map Prod.fst) :
    lookupP pid (V1.inactiveSweep connected now ps).1 = none ∧
    (V1.inactiveSweep connected now ps).2.2.filter (isPlayerLeft pid) = [] := by
  induction ps with
  | nil => simp [V1.inactiveSweep]
  | cons hd tl ih =>
      obtain ⟨k, q⟩ := hd
      have hk : k ≠ pid := by
        intro h
        exact hnm (by simp [h])
      have htl : pid ∉ tl.map Prod.fst := by
        intro h
        exact hnm (by simp [h])
      have ihr := ih htl
      unfold V1.inactiveSweep
      by_cases hc : connected k = false ∨ 15000 < now - q.lastActivity
      · simp only [if_pos hc]
        refine ⟨ihr.1, ?_⟩
        simp [isPlayerLeft, hk, ihr.2]
      · simp only [if_neg hc]
        refine ⟨?_, ihr.2⟩
        simp [hk, ihr.1]

theorem inactiveSweep_stale (connected : Sid → Bool) (now : ℝ)
    (ps : Players) (pid : Sid) (p : Player)
    (hnodup : (ps.map Prod.fst).Nodup) (hmem : (pid, p) ∈ ps)
    (hstale : 15000 < now - p.lastActivity) :
    lookupP pid (V1.inactiveSweep connected now ps).1 = none ∧
    ((V1.inactiveSweep connected now ps).2.2.filter (isPlayerLeft pid)).length = 1 ∧
    0 < (V1.inactiveSweep connected now ps).2.1 := by
  induction ps with
  | nil => simp at hmem
  | cons hd tl ih =>
      obtain ⟨k, q⟩ := hd
      have hnodup' : (k :: tl.map Prod.fst).Nodup := by simpa using hnodup
      have hnd1 : k ∉ tl.map Prod.fst := (List.nodup_cons.mp hnodup').1
      have hnd2 : (tl.map Prod.fst).Nodup := (List.nodup_cons.mp hnodup').2
      rcases List.mem_cons.mp hmem with heq | hm
      · injection heq with h1 h2
        subst h1
        subst h2
        have hrest := inactiveSweep_notmem connected now tl pid hnd1
        unfold V1.inactiveSweep
        rw [if_pos (Or.inr hstale)]
        exact ⟨hrest.1, by simp [isPlayerLeft, hrest.2], by simp⟩
      · have hkpid : k ≠ pid := by
          intro h
          subst h
          exact hnd1 (List.mem_map_of_mem Prod.fst hm)
        have ihr := ih hnd2 hm
        unfold V1.inactiveSweep
        by_cases hc : connected k = false ∨ 15000 < now - q.lastActivity
        · rw [if_pos hc]
          exact ⟨ihr.1, by simp [isPlayerLeft, hkpid, ihr.2.1], by simp⟩
        · rw [if_neg hc]
          exact ⟨by simp [hkpid, ihr.1], by simpa using ihr.2.1, by simpa using ihr.2.2⟩

theorem ipSweep_mem (connected : Sid → Bool) (ipConns : List (Addr × List Sid))
    (ps : Players) (pid : Sid) (p : Player)
    (hmem : (pid, p) ∈ ps) (hconn : connected pid = true) :
    (pid, p) ∈ (V1.ipSweep connected ipConns ps).2 := by
  induction ipConns generalizing ps with
  | nil => simpa [V1.ipSweep] using hmem
  | cons hd rest ih =>
      obtain ⟨ip, conns⟩ := hd
      unfold V1.ipSweep
      show (pid, p) ∈ (V1.ipSweep connected rest
        (ps.filter (fun kp => !(conns.filter (fun s => !connected s)).contains kp.1))).2
      apply ih
      refine List.mem_filter.mpr ⟨hmem, ?_⟩
      simp [List.mem_filter, hconn]

theorem ipSweep_nodup (connected : Sid → Bool) (ipConns : List (Addr × List Sid))
    (ps : Players) (hnodup : (ps.map Prod.fst).Nodup) :
    (((V1.ipSweep connected ipConns ps).2).map Prod.fst).Nodup := by
  induction ipConns generalizing ps with
  | nil => simpa [V1.ipSweep] using hnodup
  | cons hd rest ih =>
      obtain ⟨ip, conns⟩ := hd
      unfold V1.ipSweep
      show ((((V1.ipSweep connected rest
        (ps.filter (fun kp => !(conns.filter (fun s => !connected s)).contains kp.1))).2)).map
          Prod.fst).Nodup
      apply ih
      exact List.Nodup.sublist ((List.filter_sublist ps).map Prod.fst) hnodup

/-- **C8** (amended).  Every player whose `lastActivity` is more than
the 15-second inactivity timeout old (and whose transport is still
live, so the silent IP-table phase does not touch it) is removed from
the registry by the periodic cleanup sweep, with exactly one
`playerLeft` broadcast for it; the sweep emits exactly ONE
`playerCountUpdate` broadcast in total (shared by all removals of that
sweep), not one per removal. -/
theorem C8_liveness_sweep (connected : Sid → Bool) (now : ℝ)
    (ipConns : List (Addr × List Sid)) (ps : Players) (pid : Sid) (p : Player)
    (hnodup : (ps.map Prod.fst).Nodup) (hmem : (pid, p) ∈ ps)
    (hconn : connected pid = true) (hstale : 15000 < now - p.lastActivity) :
    lookupP pid (V1.cleanupSweep connected now ipConns ps).2.1 = none ∧
    ((V1.cleanupSweep connected now ipConns ps).2.2.filter (isPlayerLeft pid)).length = 1 ∧
    ((V1.cleanupSweep connected now ipConns ps).2.2.filter isCountUpdate).length = 1 := by
  have hmem1 := ipSweep_mem connected ipConns ps pid p hmem hconn
  have hnodup1 := ipSweep_nodup connected ipConns ps hnodup
  have hst := inactiveSweep_stale connected now
    (V1.ipSweep connected ipConns ps).2 pid p hnodup1 hmem1 hstale
  have hnocu := inactiveSweep_no_countUpdate connected now
    (V1.ipSweep connected ipConns ps).2
  unfold V1.cleanupSweep
  refine ⟨hst.1, ?_, ?_⟩
  · rw [List.filter_append, List.length_append, hst.2.1]
    rw [if_pos hst.2.2]
    simp [isPlayerLeft]
  · rw [List.filter_append, List.length_append, hnocu]
    rw [if_pos hst.2.2]
    simp [isCountUpdate]

/-- Witness for C8: a single stale player is removed by the sweep with
one `playerLeft` and one `playerCountUpdate`. -/
theorem C8_liveness_sweep_witness :
    lookupP "a" (V1.cleanupSweep (fun _ => true) 20000 []
        [("a", mkP 0 0 100)]).2.1 = none ∧
    ((V1.cleanupSweep (fun _ => true) 20000 []
        [("a", mkP 0 0 100)]).2.2.filter (isPlayerLeft "a")).length = 1 ∧
    ((V1.cleanupSweep (fun _ => true) 20000 []
        [("a", mkP 0 0 100)]).2.2.filter isCountUpdate).length = 1 :=
  C8_liveness_sweep (fun _ => true) 20000 [] [("a", mkP 0 0 100)] "a" (mkP 0 0 100)
    (by simp) (by simp) rfl (by norm_num [mkP])

/-- Counterexample to C8 as stated: when two players go stale in the
same sweep window, the sweep removes both and emits two `playerLeft`
broadcasts but only ONE `playerCountUpdate` in total — not one per
removal as the claim's "that removal is accompanied by ... exactly one
playerCountUpdate broadcast" requires. -/
theorem C8_counterexample :
    (V1.cleanupSweep (fun _ => true) 20000 []
        [("a", mkP 0 0 100), ("b", mkP 0 0 100)]).2.2 =
      [Emit.toAll (Event.playerLeft "a"), Emit.toAll (Event.playerLeft "b"),
        Emit.toAll (Event.playerCountUpdate 0)] ∧
    ((V1.cleanupSweep (fun _ => true) 20000 []
        [("a", mkP 0 0 100), ("b", mkP 0 0 100)]).2.1).length = 0 ∧
    ((V1.cleanupSweep (fun _ => true) 20000 []
        [("a", mkP 0 0 100), ("b", mkP 0 0 100)]).2.2.filter isCountUpdate).length = 1 := by
  have hcond : (fun (_ : Sid) => true) "b" = false ∨
      (15000 : ℝ) < 20000 - (mkP 0 0 100).lastActivity :=
    Or.inr (by norm_num [mkP])
  have h1 : V1.inactiveSweep (fun _ => true) 20000 [("b", mkP 0 0 100)] =
      ([], 1, [Emit.toAll (Event.playerLeft "b")]) := by
    unfold V1.inactiveSweep
    rw [if_pos hcond]
    rfl
  have h2 : V1.inactiveSweep (fun _ => true) 20000
      [("a", mkP 0 0 100), ("b", mkP 0 0 100)] =
      ([], 2, [Emit.toAll (Event.playerLeft "a"), Emit.toAll (Event.playerLeft "b")]) := by
    unfold V1.inactiveSweep
    rw [if_pos (Or.inr (by norm_num [mkP] :
      (15000 : ℝ) < 20000 - (mkP 0 0 100).lastActivity))]
    rw [h1]
  have hout : V1.cleanupSweep (fun _ => true) 20000 []
      [("a", mkP 0 0 100), ("b", mkP 0 0 100)] =
      ([], [], [Emit.toAll (Event.playerLeft "a"), Emit.toAll (Event.playerLeft "b"),
        Emit.toAll (Event.playerCountUpdate 0)]) := by
    show (([] : List (Addr × List Sid)),
        (V1.inactiveSweep (fun _ => true) 20000
          [("a", mkP 0 0 100), ("b", mkP 0 0 100)]).1,
        (V1.inactiveSweep (fun _ => true) 20000
            [("a", mkP 0 0 100), ("b", mkP 0 0 100)]).2.2 ++
          if 0 < (V1.inactiveSweep (fun _ => true) 20000
              [("a", mkP 0 0 100), ("b", mkP 0 0 100)]).2.1 then
            [Emit.toAll (Event.playerCountUpdate
              (List.length (V1.inactiveSweep (fun _ => true) 20000
                [("a", mkP 0 0 100), ("b", mkP 0 0 100)]).1))]
          else []) =
      (([] : List (Addr × List Sid)), [],
        [Emit.toAll (Event.playerLeft "a"), Emit.toAll (Event.playerLeft "b"),
          Emit.toAll (Event.playerCountUpdate 0)])
    rw [h2]
    norm_num
  rw [hout]
  refine ⟨rfl, rfl, ?_⟩
  simp [isCountUpdate]

/- ### C3: kill sequencing -/

/-- Is this emitted event a `playerKilled` broadcast? -/
def isKilledEvent : Emit → Bool
  | .toAll (.playerKilled _ _) => true
  | _ => false

/-- Is this emitted event a `playerKilled` broadcast whose victim is `tid`? -/
def isKilledOf (tid : Sid) : Emit → Bool
  | .toAll (.playerKilled _ v) => v == tid
  | _ => false

theorem lookupP_eq_none_of_notmem (tid : Sid) (ps : Players)
    (h : tid ∉ ps.map Prod.fst) : lookupP tid ps = none := by
  induction ps with
  | nil => rfl
  | cons hd tl ih =>
      obtain ⟨k, p⟩ := hd
      have hk : k ≠ tid := fun he => h (by simp [he])
      have htl : tid ∉ tl.map Prod.fst := fun he => h (by simp [he])
      simp [hk, ih htl]

theorem lookupP_some_mem (tid : Sid) (ps : Players) (p : Player)
    (h : lookupP tid ps = some p) : (tid, p) ∈ ps := by
  induction ps with
  | nil => simp at h
  | cons hd tl ih =>
      obtain ⟨k, q⟩ := hd
      by_cases hk : k = tid
      · subst hk
        rw [lookupP_cons, if_pos rfl] at h
        injection h with h
        subst h
        exact List.mem_cons_self ..
      · rw [lookupP_cons, if_neg hk] at h
        exact List.mem_cons_of_mem _ (ih h)

theorem map_fst_updateP (sid : Sid) (f : Player → Player) (ps : Players) :
    (updateP sid f ps).map Prod.fst = ps.map Prod.fst := by
  induction ps with
  | nil => rfl
  | cons hd tl ih =>
      obtain ⟨k, p⟩ := hd
      by_cases hk : k = sid <;> simp [hk, ih]

theorem mem_updateP_ne (sid tid : Sid) (hne : tid ≠ sid) (f : Player → Player)
    (t : Player) (ps : Players) (hmem : (tid, t) ∈ ps) :
    (tid, t) ∈ updateP sid f ps := by
  induction ps with
  | nil => simp at hmem
  | cons hd tl ih =>
      obtain ⟨k, p⟩ := hd
      rcases List.mem_cons.mp hmem with heq | hm
      · injection heq with h1 h2
        subst h1
        subst h2
        rw [updateP_cons, if_neg hne]
        exact List.mem_cons_self ..
      · by_cases hk : k = sid
        · rw [updateP_cons, if_pos hk]
          exact List.mem_cons_of_mem _ (ih hm)
        · rw [updateP_cons, if_neg hk]
          exact List.mem_cons_of_mem _ (ih hm)

theorem meleeSweep_kills (attId : Sid) (hit : Player → Prop) (ps : Players) :
    (ServerJs.meleeSweep attId hit ps).2.1 =
      ((ServerJs.meleeSweep attId hit ps).2.2.filter isKilledEvent).length := by
  induction ps with
  | nil => simp [ServerJs.meleeSweep]
  | cons hd tl ih =>
      obtain ⟨tid, p⟩ := hd
      unfold ServerJs.meleeSweep
      by_cases h1 : p.health ≤ 0 ∨ tid = attId
      · simp only [if_pos h1]
        exact ih
      · simp only [if_neg h1]
        by_cases h2 : hit p
        · simp only [if_pos h2]
          by_cases h3 : p.health - ServerJs.MELEE_DAMAGE ≤ 0
          · simp only [if_pos h3]
            simp [isKilledEvent, ih]
          · simp only [if_neg h3]
            simpa [isKilledEvent] using ih
        · simp only [if_neg h2]
          exact ih

theorem lookupP_of_mem_nodup (tid : Sid) (t : Player) (ps : Players)
    (hnodup : (ps.map Prod.fst).Nodup) (hmem : (tid, t) ∈ ps) :
    lookupP tid ps = some t := by
  induction ps with
  | nil => simp at hmem
  | cons hd tl ih =>
      obtain ⟨k, q⟩ := hd
      have hnodup' : (k :: tl.map Prod.fst).Nodup := by simpa using hnodup
      have hnd1 : k ∉ tl.map Prod.fst := (List.nodup_cons.mp hnodup').1
      have hnd2 : (tl.map Prod.fst).Nodup := (List.nodup_cons.mp hnodup').2
      rcases List.mem_cons.mp hmem with heq | hm
      · injection heq with h1 h2
        subst h1
        subst h2
        simp
      · have hk : k ≠ tid := by
          intro h
          subst h
          exact hnd1 (List.mem_map_of_mem Prod.fst hm)
        simp [hk, ih hnd2 hm]

theorem meleeSweep_notmem (attId : Sid) (hit : Player → Prop) (ps : Players)
    (tid : Sid) (h : tid ∉ ps.map Prod.fst) :
    lookupP tid (ServerJs.meleeSweep attId hit ps).1 = none ∧
    (ServerJs.meleeSweep attId hit ps).2.2.filter (isKilledOf tid) = [] := by
  induction ps with
  | nil => simp [ServerJs.meleeSweep]
  | cons hd tl ih =>
      obtain ⟨k, p⟩ := hd
      have hk : k ≠ tid := fun he => h (by simp [he])
      have htl : tid ∉ tl.map Prod.fst := fun he => h (by simp [he])
      have ihr := ih htl
      unfold ServerJs.meleeSweep
      by_cases h1 : p.health ≤ 0 ∨ k = attId
      · simp only [if_pos h1]
        exact ⟨by simp [hk, ihr.1], ihr.2⟩
      · simp only [if_neg h1]
        by_cases h2 : hit p
        · simp only [if_pos h2]
          by_cases h3 : p.health - ServerJs.MELEE_DAMAGE ≤ 0
          · simp only [if_pos h3]
            exact ⟨by simp [hk, ihr.1], by simp [isKilledOf, hk, ihr.2]⟩
          · simp only [if_neg h3]
            exact ⟨by simp [hk, ihr.1], by simp [isKilledOf, ihr.2]⟩
        · simp only [if_neg h2]
          exact ⟨by simp [hk, ihr.1], ihr.2⟩

theorem meleeSweep_skip (attId : Sid) (hit : Player → Prop) (ps : Players)
    (tid : Sid) (t : Player) (hnodup : (ps.map Prod.fst).Nodup)
    (hmem : (tid, t) ∈ ps) (hskip : t.health ≤ 0 ∨ tid = attId) :
    lookupP tid (ServerJs.meleeSweep attId hit ps).1 = some t ∧
    (ServerJs.meleeSweep attId hit ps).2.2.filter (isKilledOf tid) = [] := by
  induction ps with
  | nil => simp at hmem
  | cons hd tl ih =>
      obtain ⟨k, q⟩ := hd
      have hnodup' : (k :: tl.map Prod.fst).Nodup := by simpa using hnodup
      have hnd1 : k ∉ tl.map Prod.fst := (List.nodup_cons.mp hnodup').1
      have hnd2 : (tl.map Prod.fst).Nodup := (List.nodup_cons.mp hnodup').2
      rcases List.mem_cons.mp hmem with heq | hm
      · injection heq with h1 h2
        subst h1
        subst h2
        have hrest := meleeSweep_notmem attId hit tl tid hnd1
        unfold ServerJs.meleeSweep
        rw [if_pos (by
          rcases hskip with hdead | hself
          · exact Or.inl hdead
          · exact Or.inr hself)]
        exact ⟨by simp [hrest.1], hrest.2⟩
      · have hk : k ≠ tid := by
          intro h
          subst h
          exact hnd1 (List.mem_map_of_mem Prod.fst hm)
        have ihr := ih hnd2 hm
        unfold ServerJs.meleeSweep
        by_cases h1 : q.health ≤ 0 ∨ k = attId
        · simp only [if_pos h1]
          exact ⟨by simp [hk, ihr.1], ihr.2⟩
        · simp only [if_neg h1]
          by_cases h2 : hit q
          · simp only [if_pos h2]
            by_cases h3 : q.health - ServerJs.MELEE_DAMAGE ≤ 0
            · simp only [if_pos h3]
              exact ⟨by simp [hk, ihr.1], by simp [isKilledOf, hk, ihr.2]⟩
            · simp only [if_neg h3]
              exact ⟨by simp [hk, ihr.1], by simp [isKilledOf, ihr.2]⟩
          · simp only [if_neg h2]
            exact ⟨by simp [hk, ihr.1], ihr.2⟩

theorem meleeSweep_killed (attId : Sid) (hit : Player → Prop) (ps : Players)
    (tid : Sid) (t t' : Player) (hnodup : (ps.map Prod.fst).Nodup)
    (hmem : (tid, t) ∈ ps) (halive : 0 < t.health)
    (hl : lookupP tid (ServerJs.meleeSweep attId hit ps).1 = some t')
    (hdead : t'.health ≤ 0) :
    ((ServerJs.meleeSweep attId hit ps).2.2.filter (isKilledOf tid)).length = 1 := by
  induction ps with
  | nil => simp at hmem
  | cons hd tl ih =>
      obtain ⟨k, q⟩ := hd
      have hnodup' : (k :: tl.map Prod.fst).Nodup := by simpa using hnodup
      have hnd1 : k ∉ tl.map Prod.fst := (List.nodup_cons.mp hnodup').1
      have hnd2 : (tl.map Prod.fst).Nodup := (List.nodup_cons.mp hnodup').2
      rcases List.mem_cons.mp hmem with heq | hm
      · injection heq with h1 h2
        subst h1
        subst h2
        unfold ServerJs.meleeSweep at hl ⊢
        by_cases hq1 : t.health ≤ 0 ∨ tid = attId
        · simp only [if_pos hq1] at hl ⊢
          rw [lookupP_cons, if_pos rfl] at hl
          injection hl with hl
          subst hl
          exact absurd hdead (not_le.mpr halive)
        · by_cases hq2 : hit t
          · by_cases hq3 : t.health - ServerJs.MELEE_DAMAGE ≤ 0
            · simp only [if_neg hq1, if_pos hq2, if_pos hq3] at hl ⊢
              have hrest := meleeSweep_notmem attId hit tl tid hnd1
              simp [isKilledOf, hrest.2]
            · simp only [if_neg hq1, if_pos hq2, if_neg hq3] at hl ⊢
              rw [lookupP_cons, if_pos rfl] at hl
              injection hl with hl
              subst hl
              exact absurd hdead hq3
          · simp only [if_neg hq1, if_neg hq2] at hl ⊢
            rw [lookupP_cons, if_pos rfl] at hl
            injection hl with hl
            subst hl
            exact absurd hdead (not_le.mpr halive)
      · have hk : k ≠ tid := by
          intro h
          subst h
          exact hnd1 (List.mem_map_of_mem Prod.fst hm)
        unfold ServerJs.meleeSweep at hl ⊢
        by_cases h1 : q.health ≤ 0 ∨ k = attId
        · simp only [if_pos h1] at hl ⊢
          rw [lookupP_cons, if_neg hk] at hl
          exact ih hnd2 hm hl
        · by_cases h2 : hit q
          · by_cases h3 : q.health - ServerJs.MELEE_DAMAGE ≤ 0
            · simp only [if_neg h1, if_pos h2, if_pos h3] at hl ⊢
              rw [lookupP_cons, if_neg hk] at hl
              simp [isKilledOf, hk, ih hnd2 hm hl]
            · simp only [if_neg h1, if_pos h2, if_neg h3] at hl ⊢
              rw [lookupP_cons, if_neg hk] at hl
              simp [isKilledOf, ih hnd2 hm hl]
          · simp only [if_neg h1, if_neg h2] at hl ⊢
            rw [lookupP_cons, if_neg hk] at hl
            exact ih hnd2 hm hl

theorem meleeSweepFirst_kills (attId : Sid) (hit : Player → Prop) (ps : Players) :
    (ServerJs.meleeSweepFirst attId hit ps).2.1 =
      ((ServerJs.meleeSweepFirst attId hit ps).2.2.filter isKilledEvent).length := by
  induction ps with
  | nil => simp [ServerJs.meleeSweepFirst]
  | cons hd tl ih =>
      obtain ⟨tid, p⟩ := hd
      unfold ServerJs.meleeSweepFirst
      by_cases h1 : p.health ≤ 0 ∨ tid = attId
      · simp only [if_pos h1]
        exact ih
      · simp only [if_neg h1]
        by_cases h2 : hit p
        · simp only [if_pos h2]
          by_cases h3 : p.health - ServerJs.MELEE_DAMAGE ≤ 0
          · simp only [if_pos h3]
            simp [isKilledEvent]
          · simp only [if_neg h3]
            simp [isKilledEvent]
        · simp only [if_neg h2]
          exact ih

theorem meleeSweepFirst_notmem (attId : Sid) (hit : Player → Prop) (ps : Players)
    (tid : Sid) (h : tid ∉ ps.map Prod.fst) :
    lookupP tid (ServerJs.meleeSweepFirst attId hit ps).1 = none ∧
    (ServerJs.meleeSweepFirst attId hit ps).2.2.filter (isKilledOf tid) = [] := by
  induction ps with
  | nil => simp [ServerJs.meleeSweepFirst]
  | cons hd tl ih =>
      obtain ⟨k, p⟩ := hd
      have hk : k ≠ tid := fun he => h (by simp [he])
      have htl : tid ∉ tl.map Prod.fst := fun he => h (by simp [he])
      have ihr := ih htl
      have hnone := lookupP_eq_none_of_notmem tid tl htl
      unfold ServerJs.meleeSweepFirst
      by_cases h1 : p.health ≤ 0 ∨ k = attId
      · simp only [if_pos h1]
        exact ⟨by simp [hk, ihr.1], ihr.2⟩
      · simp only [if_neg h1]
        by_cases h2 : hit p
        · simp only [if_pos h2]
          by_cases h3 : p.health - ServerJs.MELEE_DAMAGE ≤ 0
          · simp only [if_pos h3]
            exact ⟨by simp [hk, hnone], by simp [isKilledOf, hk]⟩
          · simp only [if_neg h3]
            exact ⟨by simp [hk, hnone], by simp [isKilledOf]⟩
        · simp only [if_neg h2]
          exact ⟨by simp [hk, ihr.1], ihr.2⟩

theorem meleeSweepFirst_skip (attId : Sid) (hit : Player → Prop) (ps : Players)
    (tid : Sid) (t : Player) (hnodup : (ps.map Prod.fst).Nodup)
    (hmem : (tid, t) ∈ ps) (hskip : t.health ≤ 0 ∨ tid = attId) :
    lookupP tid (ServerJs.meleeSweepFirst attId hit ps).1 = some t ∧
    (ServerJs.meleeSweepFirst attId hit ps).2.2.filter (isKilledOf tid) = [] := by
  induction ps with
  | nil => simp at hmem
  | cons hd tl ih =>
      obtain ⟨k, q⟩ := hd
      have hnodup' : (k :: tl.map Prod.fst).Nodup := by simpa using hnodup
      have hnd1 : k ∉ tl.map Prod.fst := (List.nodup_cons.mp hnodup').1
      have hnd2 : (tl.map Prod.fst).Nodup := (List.nodup_cons.mp hnodup').2
      rcases List.mem_cons.mp hmem with heq | hm
      · injection heq with h1 h2
        subst h1
        subst h2
        have hrest := meleeSweepFirst_notmem attId hit tl tid hnd1
        unfold ServerJs.meleeSweepFirst
        rw [if_pos hskip]
        exact ⟨by simp [hrest.1], hrest.2⟩
      · have hk : k ≠ tid := by
          intro h
          subst h
          exact hnd1 (List.mem_map_of_mem Prod.fst hm)
        have ihr := ih hnd2 hm
        have hsome := lookupP_of_mem_nodup tid t tl hnd2 hm
        unfold ServerJs.meleeSweepFirst
        by_cases h1 : q.health ≤ 0 ∨ k = attId
        · simp only [if_pos h1]
          exact ⟨by simp [hk, ihr.1], ihr.2⟩
        · simp only [if_neg h1]
          by_cases h2 : hit q
          · simp only [if_pos h2]
            by_cases h3 : q.health - ServerJs.MELEE_DAMAGE ≤ 0
            · simp only [if_pos h3]
              exact ⟨by simp [hk, hsome], by simp [isKilledOf, hk]⟩
            · simp only [if_neg h3]
              exact ⟨by simp [hk, hsome], by simp [isKilledOf]⟩
          · simp only [if_neg h2]
            exact ⟨by simp [hk, ihr.1], ihr.2⟩

theorem meleeSweepFirst_killed (attId : Sid) (hit : Player → Prop) (ps : Players)
    (tid : Sid) (t t' : Player) (hnodup : (ps.map Prod.fst).Nodup)
    (hmem : (tid, t) ∈ ps) (halive : 0 < t.health)
    (hl : lookupP tid (ServerJs.meleeSweepFirst attId hit ps).1 = some t')
    (hdead : t'.health ≤ 0) :
    ((ServerJs.meleeSweepFirst attId hit ps).2.2.filter (isKilledOf tid)).length = 1 := by
  induction ps with
  | nil => simp at hmem
  | cons hd tl ih =>
      obtain ⟨k, q⟩ := hd
      have hnodup' : (k :: tl.map Prod.fst).Nodup := by simpa using hnodup
      have hnd1 : k ∉ tl.map Prod.fst := (List.nodup_cons.mp hnodup').1
      have hnd2 : (tl.map Prod.fst).Nodup := (List.nodup_cons.mp hnodup').2
      rcases List.mem_cons.mp hmem with heq | hm
      · injection heq with h1 h2
        subst h1
        subst h2
        unfold ServerJs.meleeSweepFirst at hl ⊢
        by_cases hq1 : t.health ≤ 0 ∨ tid = attId
        · simp only [if_pos hq1] at hl ⊢
          rw [lookupP_cons, if_pos rfl] at hl
          injection hl with hl
          subst hl
          exact absurd hdead (not_le.mpr halive)
        · by_cases hq2 : hit t
          · by_cases hq3 : t.health - ServerJs.MELEE_DAMAGE ≤ 0
            · simp only [if_neg hq1, if_pos hq2, if_pos hq3] at hl ⊢
              simp [isKilledOf]
            · simp only [if_neg hq1, if_pos hq2, if_neg hq3] at hl ⊢
              rw [lookupP_cons, if_pos rfl] at hl
              injection hl with hl
              subst hl
              exact absurd hdead hq3
          · simp only [if_neg hq1, if_neg hq2] at hl ⊢
            rw [lookupP_cons, if_pos rfl] at hl
            injection hl with hl
            subst hl
            exact absurd hdead (not_le.mpr halive)
      · have hk : k ≠ tid := by
          intro h
          subst h
          exact hnd1 (List.mem_map_of_mem Prod.fst hm)
        have hsome := lookupP_of_mem_nodup tid t tl hnd2 hm
        unfold ServerJs.meleeSweepFirst at hl ⊢
        by_cases h1 : q.health ≤ 0 ∨ k = attId
        · simp only [if_pos h1] at hl ⊢
          rw [lookupP_cons, if_neg hk] at hl
          exact ih hnd2 hm hl
        · by_cases h2 : hit q
          · by_cases h3 : q.health - ServerJs.MELEE_DAMAGE ≤ 0
            · simp only [if_neg h1, if_pos h2, if_pos h3] at hl ⊢
              rw [lookupP_cons, if_neg hk, hsome] at hl
              injection hl with hl
              subst hl
              exact absurd hdead (not_le.mpr halive)
            · simp only [if_neg h1, if_pos h2, if_neg h3] at hl ⊢
              rw [lookupP_cons, if_neg hk, hsome] at hl
              injection hl with hl
              subst hl
              exact absurd hdead (not_le.mpr halive)
          · simp only [if_neg h1, if_neg h2] at hl ⊢
            rw [lookupP_cons, if_neg hk] at hl
            exact ih hnd2 hm hl

theorem onAttack_reduced (ps : Players) (sid : Sid) (att : Player)
    (aim now : ℝ) (hp : lookupP sid ps = some att) (halive : 0 < att.health) :
    ServerJs.onAttack ps sid aim now =
      (updateP sid
        (fun a => { a with kills := a.kills +
          (ServerJs.meleeSweep sid (ServerJs.coneHit att aim)
            (updateP sid (fun a => { a with lastActivity := now }) ps)).2.1 })
        (ServerJs.meleeSweep sid (ServerJs.coneHit att aim)
          (updateP sid (fun a => { a with lastActivity := now }) ps)).1,
       (ServerJs.meleeSweep sid (ServerJs.coneHit att aim)
         (updateP sid (fun a => { a with lastActivity := now }) ps)).2.2) := by
  unfold ServerJs.onAttack
  rw [hp]
  simp only [if_pos halive]

theorem onAreaAttack_reduced (ps : Players) (sid : Sid) (att : Player)
    (dir now : ℝ) (hp : lookupP sid ps = some att) (halive : 0 < att.health) :
    ServerJs.onAreaAttack ps sid dir now =
      (updateP sid
        (fun a => { a with kills := a.kills +
          (ServerJs.meleeSweep sid (ServerJs.laneHit att dir)
            (updateP sid (fun a => { a with lastActivity := now }) ps)).2.1 })
        (ServerJs.meleeSweep sid (ServerJs.laneHit att dir)
          (updateP sid (fun a => { a with lastActivity := now }) ps)).1,
       (ServerJs.meleeSweep sid (ServerJs.laneHit att dir)
         (updateP sid (fun a => { a with lastActivity := now }) ps)).2.2) := by
  unfold ServerJs.onAreaAttack
  rw [hp]
  simp only [if_pos halive]

theorem onMobileCollisionAttack_reduced (ps : Players) (sid : Sid) (att : Player)
    (bX bY bS now : ℝ) (hp : lookupP sid ps = some att) (halive : 0 < att.health) :
    ServerJs.onMobileCollisionAttack ps sid bX bY bS now =
      (updateP sid
        (fun a => { a with kills := a.kills +
          (ServerJs.meleeSweepFirst sid (ServerJs.collisionHit bX bY bS)
            (updateP sid (fun a => { a with lastActivity := now }) ps)).2.1 })
        (ServerJs.meleeSweepFirst sid (ServerJs.collisionHit bX bY bS)
          (updateP sid (fun a => { a with lastActivity := now }) ps)).1,
       (ServerJs.meleeSweepFirst sid (ServerJs.collisionHit bX bY bS)
         (updateP sid (fun a => { a with lastActivity := now }) ps)).2.2) := by
  unfold ServerJs.onMobileCollisionAttack
  rw [hp]
  simp only [if_pos halive]

theorem sweepGlue (ps : Players) (sid : Sid) (att : Player) (now : ℝ)
    (hit : Player → Prop) (hnodup : (ps.map Prod.fst).Nodup)
    (hp : lookupP sid ps = some att) :
    lookupP sid
        (updateP sid
          (fun a => { a with kills := a.kills +
            (ServerJs.meleeSweep sid hit
              (updateP sid (fun a => { a with lastActivity := now }) ps)).2.1 })
          (ServerJs.meleeSweep sid hit
            (updateP sid (fun a => { a with lastActivity := now }) ps)).1) =
      some { att with
        lastActivity := now
        kills := att.kills +
          ((ServerJs.meleeSweep sid hit
            (updateP sid (fun a => { a with lastActivity := now }) ps)).2.2.filter
              isKilledEvent).length } ∧
    (∀ tid t, tid ≠ sid → (tid, t) ∈ ps → t.health ≤ 0 →
      lookupP tid
          (updateP sid
            (fun a => { a with kills := a.kills +
              (ServerJs.meleeSweep sid hit
                (updateP sid (fun a => { a with lastActivity := now }) ps)).2.1 })
            (ServerJs.meleeSweep sid hit
              (updateP sid (fun a => { a with lastActivity := now }) ps)).1) = some t ∧
      (ServerJs.meleeSweep sid hit
        (updateP sid (fun a => { a with lastActivity := now }) ps)).2.2.filter
          (isKilledOf tid) = []) ∧
    (∀ tid t t', tid ≠ sid → (tid, t) ∈ ps → 0 < t.health →
      lookupP tid
          (updateP sid
            (fun a => { a with kills := a.kills +
              (ServerJs.meleeSweep sid hit
                (updateP sid (fun a => { a with lastActivity := now }) ps)).2.1 })
            (ServerJs.meleeSweep sid hit
              (updateP sid (fun a => { a with lastActivity := now }) ps)).1) = some t' →
      t'.health ≤ 0 →
      ((ServerJs.meleeSweep sid hit
        (updateP sid (fun a => { a with lastActivity := now }) ps)).2.2.filter
          (isKilledOf tid)).length = 1) := by
  have hnodup1 : (((updateP sid (fun a => { a with lastActivity := now }) ps).map
      Prod.fst)).Nodup := by
    rw [map_fst_updateP]
    exact hnodup
  have hatt1 : lookupP sid (updateP sid (fun a => { a with lastActivity := now }) ps) =
      some { att with lastActivity := now } := by
    rw [lookupP_updateP, hp]
    rfl
  have hmem1 := lookupP_some_mem sid _ _ hatt1
  have hself := meleeSweep_skip sid hit
    (updateP sid (fun a => { a with lastActivity := now }) ps) sid
    { att with lastActivity := now } hnodup1 hmem1 (Or.inr rfl)
  refine ⟨?_, ?_, ?_⟩
  · rw [lookupP_updateP, hself.1]
    simp only [Option.map_some']
    rw [meleeSweep_kills]
  · intro tid t hne hmem hdead
    have hmemt : (tid, t) ∈ updateP sid (fun a => { a with lastActivity := now }) ps :=
      mem_updateP_ne sid tid hne _ t ps hmem
    have hres := meleeSweep_skip sid hit
      (updateP sid (fun a => { a with lastActivity := now }) ps) tid t
      hnodup1 hmemt (Or.inl hdead)
    exact ⟨by rw [lookupP_updateP_ne sid tid hne, hres.1], hres.2⟩
  · intro tid t t' hne hmem halive hl hdead
    have hmemt : (tid, t) ∈ updateP sid (fun a => { a with lastActivity := now }) ps :=
      mem_updateP_ne sid tid hne _ t ps hmem
    rw [lookupP_updateP_ne sid tid hne] at hl
    exact meleeSweep_killed sid hit
      (updateP sid (fun a => { a with lastActivity := now }) ps) tid t t'
      hnodup1 hmemt halive hl hdead

theorem sweepFirstGlue (ps : Players) (sid : Sid) (att : Player) (now : ℝ)
    (hit : Player → Prop) (hnodup : (ps.map Prod.fst).Nodup)
    (hp : lookupP sid ps = some att) :
    lookupP sid
        (updateP sid
          (fun a => { a with kills := a.kills +
            (ServerJs.meleeSweepFirst sid hit
              (updateP sid (fun a => { a with lastActivity := now }) ps)).2.1 })
          (ServerJs.meleeSweepFirst sid hit
            (updateP sid (fun a => { a with lastActivity := now }) ps)).1) =
      some { att with
        lastActivity := now
        kills := att.kills +
          ((ServerJs.meleeSweepFirst sid hit
            (updateP sid (fun a => { a with lastActivity := now }) ps)).2.2.filter
              isKilledEvent).length } ∧
    (∀ tid t, tid ≠ sid → (tid, t) ∈ ps → t.health ≤ 0 →
      lookupP tid
          (updateP sid
            (fun a => { a with kills := a.kills +
              (ServerJs.meleeSweepFirst sid hit
                (updateP sid (fun a => { a with lastActivity := now }) ps)).2.1 })
            (ServerJs.meleeSweepFirst sid hit
              (updateP sid (fun a => { a with lastActivity := now }) ps)).1) = some t ∧
      (ServerJs.meleeSweepFirst sid hit
        (updateP sid (fun a => { a with lastActivity := now }) ps)).2.2.filter
          (isKilledOf tid) = []) ∧
    (∀ tid t t', tid ≠ sid → (tid, t) ∈ ps → 0 < t.health →
      lookupP tid
          (updateP sid
            (fun a => { a with kills := a.kills +
              (ServerJs.meleeSweepFirst sid hit
                (updateP sid (fun a => { a with lastActivity := now }) ps)).2.1 })
            (ServerJs.meleeSweepFirst sid hit
              (updateP sid (fun a => { a with lastActivity := now }) ps)).1) = some t' →
      t'.health ≤ 0 →
      ((ServerJs.meleeSweepFirst sid hit
        (updateP sid (fun a => { a with lastActivity := now }) ps)).2.2.filter
          (isKilledOf tid)).length = 1) := by
  have hnodup1 : (((updateP sid (fun a => { a with lastActivity := now }) ps).map
      Prod.fst)).Nodup := by
    rw [map_fst_updateP]
    exact hnodup
  have hatt1 : lookupP sid (updateP sid (fun a => { a with lastActivity := now }) ps) =
      some { att with lastActivity := now } := by
    rw [lookupP_updateP, hp]
    rfl
  have hmem1 := lookupP_some_mem sid _ _ hatt1
  have hself := meleeSweepFirst_skip sid hit
    (updateP sid (fun a => { a with lastActivity := now }) ps) sid
    { att with lastActivity := now } hnodup1 hmem1 (Or.inr rfl)
  refine ⟨?_, ?_, ?_⟩
  · rw [lookupP_updateP, hself.1]
    simp only [Option.map_some']
    rw [meleeSweepFirst_kills]
  · intro tid t hne hmem hdead
    have hmemt : (tid, t) ∈ updateP sid (fun a => { a with lastActivity := now }) ps :=
      mem_updateP_ne sid tid hne _ t ps hmem
    have hres := meleeSweepFirst_skip sid hit
      (updateP sid (fun a => { a with lastActivity := now }) ps) tid t
      hnodup1 hmemt (Or.inl hdead)
    exact ⟨by rw [lookupP_updateP_ne sid tid hne, hres.1], hres.2⟩
  · intro tid t t' hne hmem halive hl hdead
    have hmemt : (tid, t) ∈ updateP sid (fun a => { a with lastActivity := now }) ps :=
      mem_updateP_ne sid tid hne _ t ps hmem
    rw [lookupP_updateP_ne sid tid hne] at hl
    exact meleeSweepFirst_killed sid hit
      (updateP sid (fun a => { a with lastActivity := now }) ps) tid t t'
      hnodup1 hmemt halive hl hdead

/-- **C3**.  For each of the three attack variants (`attack`,
`areaAttack`, `mobileCollisionAttack`) of a present, living attacker:
(i) the attacker's kill counter grows by exactly the number of
`playerKilled` broadcasts the attack emits (its own health untouched,
only `lastActivity` refreshed); (ii) a target that is already dead
(health ≤ 0) is excluded from hit detection — its record is unchanged
and no `playerKilled` event names it, so a dead player cannot be hit
again until respawn; (iii) every target whose health the attack takes
from above 0 to at most 0 is named as the victim of exactly one
`playerKilled` broadcast. -/
theorem C3_kill_sequencing (ps : Players) (sid : Sid) (att : Player)
    (aim dir bX bY bS now : ℝ)
    (hnodup : (ps.map Prod.fst).Nodup)
    (hp : lookupP sid ps = some att) (halive : 0 < att.health) :
    (lookupP sid (ServerJs.onAttack ps sid aim now).1 =
        some { att with
          lastActivity := now
          kills := att.kills +
            ((ServerJs.onAttack ps sid aim now).2.filter isKilledEvent).length }) ∧
    (∀ tid t, tid ≠ sid → (tid, t) ∈ ps → t.health ≤ 0 →
        lookupP tid (ServerJs.onAttack ps sid aim now).1 = some t ∧
        (ServerJs.onAttack ps sid aim now).2.filter (isKilledOf tid) = []) ∧
    (∀ tid t t', tid ≠ sid → (tid, t) ∈ ps → 0 < t.health →
        lookupP tid (ServerJs.onAttack ps sid aim now).1 = some t' → t'.health ≤ 0 →
        ((ServerJs.onAttack ps sid aim now).2.filter (isKilledOf tid)).length = 1) ∧
    (lookupP sid (ServerJs.onAreaAttack ps sid dir now).1 =
        some { att with
          lastActivity := now
          kills := att.kills +
            ((ServerJs.onAreaAttack ps sid dir now).2.filter isKilledEvent).length }) ∧
    (∀ tid t, tid ≠ sid → (tid, t) ∈ ps → t.health ≤ 0 →
        lookupP tid (ServerJs.onAreaAttack ps sid dir now).1 = some t ∧
        (ServerJs.onAreaAttack ps sid dir now).2.filter (isKilledOf tid) = []) ∧
    (∀ tid t t', tid ≠ sid → (tid, t) ∈ ps → 0 < t.health →
        lookupP tid (ServerJs.onAreaAttack ps sid dir now).1 = some t' → t'.health ≤ 0 →
        ((ServerJs.onAreaAttack ps sid dir now).2.filter (isKilledOf tid)).length = 1) ∧
    (lookupP sid (ServerJs.onMobileCollisionAttack ps sid bX bY bS now).1 =
        some { att with
          lastActivity := now
          kills := att.kills +
            ((ServerJs.onMobileCollisionAttack ps sid bX bY bS now).2.filter
              isKilledEvent).length }) ∧
    (∀ tid t, tid ≠ sid → (tid, t) ∈ ps → t.health ≤ 0 →
        lookupP tid (ServerJs.onMobileCollisionAttack ps sid bX bY bS now).1 = some t ∧
        (ServerJs.onMobileCollisionAttack ps sid bX bY bS now).2.filter
          (isKilledOf tid) = []) ∧
    (∀ tid t t', tid ≠ sid → (tid, t) ∈ ps → 0 < t.health →
        lookupP tid (ServerJs.onMobileCollisionAttack ps sid bX bY bS now).1 = some t' →
        t'.health ≤ 0 →
        ((ServerJs.onMobileCollisionAttack ps sid bX bY bS now).2.filter
          (isKilledOf tid)).length = 1) := by
  have hA := sweepGlue ps sid att now (ServerJs.coneHit att aim) hnodup hp
  have hB := sweepGlue ps sid att now (ServerJs.laneHit att dir) hnodup hp
  have hM := sweepFirstGlue ps sid att now (ServerJs.collisionHit bX bY bS) hnodup hp
  rw [onAttack_reduced ps sid att aim now hp halive,
    onAreaAttack_reduced ps sid att dir now hp halive,
    onMobileCollisionAttack_reduced ps sid att bX bY bS now hp halive]
  exact ⟨hA.1, hA.2.1, hA.2.2, hB.1, hB.2.1, hB.2.2, hM.1, hM.2.1, hM.2.2⟩

/-- Witness for C3: a dead target is untouched by an attack and no
`playerKilled` event names it. -/
theorem C3_kill_sequencing_witness :
    lookupP "b" (ServerJs.onAttack [("a", mkP 0 0 100), ("b", mkP 50 0 0)]
        "a" 0 2000).1 = some (mkP 50 0 0) ∧
    (ServerJs.onAttack [("a", mkP 0 0 100), ("b", mkP 50 0 0)]
        "a" 0 2000).2.filter (isKilledOf "b") = [] :=
  (C3_kill_sequencing [("a", mkP 0 0 100), ("b", mkP 50 0 0)] "a" (mkP 0 0 100)
      0 1 50 0 40 2000 (by simp) (by simp) (by norm_num [mkP])).2.1
    "b" (mkP 50 0 0) (by simp) (by simp) (by norm_num [mkP])

end Arena
